import Mathlib

/-
  Verification of the metrics-engine computation core.

  Shallow embedding conventions:
  * A calendar date (the ISO `YYYY-MM-DD` part of a timestamp) is modelled as an
    integer day number (days since 1970-01-01; day 0 was a Thursday, so JS
    `Date.getDay()` of day `d` is `(d + 4) % 7` with 0 = Sunday, 6 = Saturday).
  * Numeric values are modelled as rationals.
  * JS `Array.prototype.sort` (stable) is modelled by `List.insertionSort`
    (also stable) under the same comparator.
  * Fallible lookups return `Option`; the engine's loops that mutate arrays in
    place are modelled by explicit state passing.
-/

namespace MetricsEngine

/-! ## Business-day calendar (src/domain/utils/businessDays.ts) -/

/-- JS `Date.getDay()` for an epoch day number: 0 = Sunday, ..., 6 = Saturday.
Day 0 (1970-01-01) was a Thursday, hence the `+ 4`. -/
def dayOfWeek (d : Int) : Int := (d + 4) % 7

/-- Weekend test from `isBusinessDay`: `dayOfWeek === 0 || dayOfWeek === 6`. -/
def isWeekend (d : Int) : Bool := dayOfWeek d == 0 || dayOfWeek d == 6

/-- `ARGENTINE_HOLIDAYS_2024`, as epoch day numbers:
2024-01-01, 03-24, 03-29, 04-02, 05-01, 05-25, 06-17, 06-20, 07-09, 08-17,
10-12, 11-18, 12-08, 12-25. -/
def argentineHolidays2024 : List Int :=
  [19723, 19806, 19811, 19815, 19844, 19868, 19891, 19894, 19913, 19952,
   20008, 20045, 20065, 20082]

/-- `ARGENTINE_HOLIDAYS_2025`, as epoch day numbers:
2025-01-01, 03-24, 04-18, 04-21, 05-01, 05-25, 06-16, 06-20, 07-09, 08-18,
10-12, 11-17, 12-08, 12-25. -/
def argentineHolidays2025 : List Int :=
  [20089, 20171, 20196, 20199, 20209, 20233, 20255, 20259, 20278, 20318,
   20373, 20409, 20430, 20447]

/-- `ALL_HOLIDAYS = [...ARGENTINE_HOLIDAYS_2024, ...ARGENTINE_HOLIDAYS_2025]`. -/
def allHolidays : List Int := argentineHolidays2024 ++ argentineHolidays2025

/-- `BusinessDaysService.isBusinessDay`: not a weekend and not in the holiday
table. The holiday table is kept as a parameter `hol`; the program instantiates
it with `allHolidays`. -/
def isBusinessDay (hol : List Int) (d : Int) : Bool :=
  !isWeekend d && !(hol.contains d)

/-- The `while (!isBusinessDay(prevDay)) prevDay.setDate(prevDay.getDate() - 1)`
loop of `previousBusinessDay`, written with explicit fuel: starting at day `d`
it returns the first business day at or below `d`, or `none` if the fuel runs
out before one is found. -/
def prevBusinessDayGo (hol : List Int) : Nat → Int → Option Int
  | 0, _ => none
  | fuel + 1, d =>
      if isBusinessDay hol d then some d else prevBusinessDayGo hol fuel (d - 1)

/-- Fuel that always suffices for `prevBusinessDayGo`: any stretch of
`7 * (hol.length + 1)` consecutive days contains `hol.length + 1` Mondays, of
which at most `hol.length` can be holidays. -/
def prevFuel (hol : List Int) : Nat := 7 * (hol.length + 1)

/-- `BusinessDaysService.previousBusinessDay`: step back one day, then keep
stepping back until a business day is reached. `prevGo_total` below shows the
fuel is never exhausted, so the `getD` fallback is never taken and this equals
the source's unbounded loop. -/
def previousBusinessDay (hol : List Int) (d : Int) : Int :=
  (prevBusinessDayGo hol (prevFuel hol) (d - 1)).getD (d - 1)

/-- `BusinessDaysService.subtractBusinessDays`: apply `previousBusinessDay`
`n` times. -/
def subtractBusinessDays (hol : List Int) (d : Int) : Nat → Int
  | 0 => d
  | n + 1 => previousBusinessDay hol (subtractBusinessDays hol d n)

/-- Counts business days among the `n` consecutive days starting at `s`. -/
def bdCountAux (hol : List Int) : Nat → Int → Nat
  | 0, _ => 0
  | n + 1, s => (if isBusinessDay hol s then 1 else 0) + bdCountAux hol n (s + 1)

/-- `BusinessDaysService.countBusinessDaysBetween` (inclusive of both ends;
0 when start > end). -/
def countBusinessDaysBetween (hol : List Int) (startDate endDate : Int) : Nat :=
  if startDate > endDate then 0
  else bdCountAux hol (endDate + 1 - startDate).toNat startDate

/-! ## Series data model and SeriesUtils (src/domain/utils/series utilities) -/

/-- A raw series point: the date part of `ts` as an epoch day number, and the
numeric `value`. (The `series_id` / `created_at` / `updated_at` bookkeeping
fields of the TS `SeriesPoint` play no role in any computation on dates and
values and are omitted.) -/
structure SeriesPoint where
  ts : Int
  value : Rat
deriving DecidableEq, Repr

instance seriesLeTotal : IsTotal SeriesPoint (fun a b => a.ts ≤ b.ts) :=
  ⟨fun a b => Int.le_total a.ts b.ts⟩

instance seriesLeTrans : IsTrans SeriesPoint (fun a b => a.ts ≤ b.ts) :=
  ⟨fun _ _ _ h1 h2 => le_trans h1 h2⟩

/-- `SeriesUtils.sortByDate`: stable ascending sort by date (JS `sort` on a
copy of the array is stable; `insertionSort` is the stable sort on lists). -/
def sortByDate (points : List SeriesPoint) : List SeriesPoint :=
  points.insertionSort (fun a b => a.ts ≤ b.ts)

/-- One `map.set(k, v)` step of an insertion-ordered JS `Map`: replace in
place if the key is present, append otherwise. -/
def mapInsert (m : List (Int × Rat)) (k : Int) (v : Rat) : List (Int × Rat) :=
  if m.any (fun kv => kv.1 == k) then
    m.map (fun kv => if kv.1 == k then (k, v) else kv)
  else m ++ [(k, v)]

/-- `SeriesUtils.toMap`: index a series by date, last value wins, keys in
first-insertion order (JS `Map` semantics). -/
def toMap (points : List SeriesPoint) : List (Int × Rat) :=
  points.foldl (fun m p => mapInsert m p.ts p.value) []

/-- Key list of a JS-`Map` model, in insertion order. -/
def mapKeys (m : List (Int × Rat)) : List Int := m.map Prod.fst

/-- `map.has(k)`. -/
def mapHas (m : List (Int × Rat)) (k : Int) : Bool := m.any (fun kv => kv.1 == k)

/-- `map.get(k)` (`none` models `undefined`). -/
def mapGet (m : List (Int × Rat)) (k : Int) : Option Rat :=
  (m.find? (fun kv => kv.1 == k)).map Prod.snd

/-- The dates carried by a series, in order. -/
def datesOf (points : List SeriesPoint) : List Int := points.map SeriesPoint.ts

/-- `SeriesUtils.getValueAtDate`: value of the first point whose date part
equals the target, else `null`. -/
def getValueAtDate (points : List SeriesPoint) (targetDate : Int) : Option Rat :=
  (points.find? (fun p => p.ts == targetDate)).map SeriesPoint.value

/-- `SeriesUtils.alignSeries`: index both series by date, take the dates of
the first map that the second map also has, emit both value sequences over
those dates, each sorted ascending by date. -/
def alignSeries (series1 series2 : List SeriesPoint) :
    List SeriesPoint × List SeriesPoint :=
  let map1 := toMap series1
  let map2 := toMap series2
  let commonDates := (mapKeys map1).filter (fun d => mapHas map2 d)
  let aligned1 := commonDates.map (fun d => SeriesPoint.mk d ((mapGet map1 d).getD 0))
  let aligned2 := commonDates.map (fun d => SeriesPoint.mk d ((mapGet map2 d).getD 0))
  (sortByDate aligned1, sortByDate aligned2)

/-- `SeriesUtils.alignMultipleSeries`: empty and single-element lists are
returned as they are; otherwise reduce pairwise with `alignSeries` keeping the
first component, then re-align every input series against that common result
and keep the second component. -/
def alignMultipleSeries (seriesArray : List (List SeriesPoint)) :
    List (List SeriesPoint) :=
  match seriesArray with
  | [] => []
  | [s] => [s]
  | s0 :: rest =>
      let result := rest.foldl (fun acc s => (alignSeries acc s).1) s0
      (s0 :: rest).map (fun s => (alignSeries result s).2)

/-! ## Statistics (src/domain/utils/statistics.ts)

Real-valued transcendental functions (`Math.log`, `Math.sqrt`) do not exist on
the rationals: `Math.log` is modelled by an arbitrary function parameter `lg`
applied to the (rational) ratio — every claim proved here holds for the actual
logarithm as a special case — and `Math.sqrt` is modelled by carrying the
square of the emitted value (squaring is injective on nonnegative reals, so
statements about equality of emitted standard deviations are exactly
statements about these squares). -/

/-- `StatisticsService.mean`: 0 on the empty list, else the running
`reduce((sum, v) => sum + v, 0)` divided by the length. -/
def meanQ (values : List Rat) : Rat :=
  if values.length = 0 then 0
  else values.foldl (fun sum v => sum + v) 0 / (values.length : Rat)

/-- The square of `StatisticsService.standardDeviation` (which returns
`Math.sqrt(variance)`): 0 when fewer than two values, else the mean of the
squared deviations from the mean — the population variance (divide by N). -/
def standardDeviationSq (values : List Rat) : Rat :=
  if values.length ≤ 1 then 0
  else meanQ (values.map (fun v => (v - meanQ values) ^ 2))

/-- `StatisticsService.logReturns`: for each consecutive pair with both prices
strictly positive, emit `lg` of the ratio `current / previous`; other pairs
are skipped. -/
def logReturns (lg : Rat → Rat) (prices : List Rat) : List Rat :=
  if prices.length < 2 then []
  else
    (prices.zip prices.tail).filterMap (fun ab =>
      if 0 < ab.1 ∧ 0 < ab.2 then some (lg (ab.2 / ab.1)) else none)

/-- `SeriesUtils.calculateLogReturns`: sorts by date, then for each
consecutive pair emits `{ts of the later point, lg(pt / ptMinus1)}` — the only
guard in the source is `ptMinus1 !== 0`. -/
def calculateLogReturns (lg : Rat → Rat) (series : List SeriesPoint) :
    List SeriesPoint :=
  if series.length < 2 then []
  else
    let sortedSeries := sortByDate series
    (sortedSeries.zip sortedSeries.tail).filterMap (fun ab =>
      if ab.1.value ≠ 0 then some (SeriesPoint.mk ab.2.ts (lg (ab.2.value / ab.1.value)))
      else none)

/-! ## Delta calculators (DeltaBaseUseCase, src/unnamed/part_004) -/

/-- The `abs` / `pct` half of a delta metric id `delta.base_{W}d.{mode}`. -/
inductive DeltaMode
  | abs
  | pct
deriving DecidableEq, Repr

/-- One `DeltaBaseResult` together with its metadata fields: the metric id is
`delta.base_{window}d.{mode}`; `current`, `reference` (normalized to
millions), and `reference_date` are the recorded metadata. -/
structure DeltaResult where
  window : Nat
  mode : DeltaMode
  ts : Int
  value : Rat
  current : Rat
  reference : Rat
  referenceDate : Int
deriving DecidableEq, Repr

/-- `DeltaBaseUseCase.normalizeToMillions`: values above 1,000,000 are assumed
to be raw currency units and divided by 1,000,000; smaller values are assumed
to already be in millions. -/
def normalizeToMillions (value : Rat) : Rat :=
  if 1000000 < value then value / 1000000 else value

/-- `DeltaBaseUseCase.findReferencePoint`: the reference date is the current
date minus `windowDays` business days; if `getValueAtDate` finds no value
there, give up, else return the first point carrying that date. -/
def findReferencePoint (sortedBase : List SeriesPoint) (currentPoint : SeriesPoint)
    (windowDays : Nat) : Option (SeriesPoint × Int) :=
  let referenceDate := subtractBusinessDays allHolidays currentPoint.ts windowDays
  match getValueAtDate sortedBase referenceDate with
  | none => none
  | some _ =>
      (sortedBase.find? (fun p => p.ts == referenceDate)).map (fun p => (p, referenceDate))

/-- `DeltaBaseUseCase.canCalculateDelta`: a reference was found and its value
is not exactly 0. -/
def canCalculateDelta (reference : Option (SeriesPoint × Int)) : Bool :=
  match reference with
  | none => false
  | some (p, _) => p.value != 0

/-- `DeltaBaseUseCase.computeAbsoluteAndPercentageDeltas`: the absolute delta
is the difference of the values normalized to millions; the percentage delta
is `(current / reference - 1) * 100` on the raw, unnormalized values. -/
def computeAbsoluteAndPercentageDeltas (currentPoint : SeriesPoint)
    (reference : SeriesPoint × Int) (windowDays : Nat) : List DeltaResult :=
  let currentMillions := normalizeToMillions currentPoint.value
  let referenceMillions := normalizeToMillions reference.1.value
  [⟨windowDays, DeltaMode.abs, currentPoint.ts, currentMillions - referenceMillions,
      currentMillions, referenceMillions, reference.2⟩,
   ⟨windowDays, DeltaMode.pct, currentPoint.ts,
      (currentPoint.value / reference.1.value - 1) * 100,
      currentMillions, referenceMillions, reference.2⟩]

/-- `DeltaBaseUseCase.calculateDeltasForWindow`: walk the sorted series; for
each point, look up the reference and, when the delta is computable, emit both
deltas. -/
def calculateDeltasForWindow (sortedBase : List SeriesPoint) (windowDays : Nat) :
    List DeltaResult :=
  sortedBase.flatMap (fun currentPoint =>
    let referencePoint := findReferencePoint sortedBase currentPoint windowDays
    if canCalculateDelta referencePoint then
      match referencePoint with
      | some r => computeAbsoluteAndPercentageDeltas currentPoint r windowDays
      | none => []
    else [])

/-- `DeltaBaseUseCase.calculateAllDeltas` over `DELTA_WINDOWS = [7, 30, 90]`. -/
def calculateAllDeltas (sortedBase : List SeriesPoint) : List DeltaResult :=
  [7, 30, 90].flatMap (fun window => calculateDeltasForWindow sortedBase window)

/-- The pure computation of `DeltaBaseUseCase.execute`: sort the input series
by date (`prepareBaseData` sorts a copy), then compute all deltas. -/
def deltaBaseResults (base : List SeriesPoint) : List DeltaResult :=
  calculateAllDeltas (sortByDate base)

/-! ## FX volatility (FxVolatilityUseCase, src/application/usecases/fxVolatility.use-case.ts) -/

/-- One `fx.vol_{window}d.usd` metric point; `valueSq` carries the square of
the emitted value (the emitted value is `Math.sqrt` of this nonnegative
rational, see the statistics section header). -/
structure VolResult where
  window : Nat
  ts : Int
  valueSq : Rat
deriving DecidableEq, Repr

/-- `FxVolatilityUseCase.extractWindowReturns`:
`logReturns.slice(endIndex - window + 1, endIndex + 1).map(lr => lr.value)`.
The only caller iterates `endIndex` from `window - 1` upward, where the slice
is exactly the `window` elements ending at `endIndex`. -/
def extractWindowReturns (lrs : List SeriesPoint) (endIndex window : Nat) :
    List Rat :=
  ((lrs.drop (endIndex + 1 - window)).take window).map SeriesPoint.value

/-- `FxVolatilityUseCase.calculateVolatilityForWindow`: for each
`i = window - 1 .. logReturns.length - 1`, emit the standard deviation of the
trailing `window` returns at the timestamp of price index `i + 1`
(`getTimestampForVolatility`). -/
def calculateVolatilityForWindow (sortedUsd lrs : List SeriesPoint)
    (window : Nat) : List VolResult :=
  ((List.range lrs.length).drop (window - 1)).map (fun i =>
    ⟨window, (sortedUsd.getD (i + 1) (SeriesPoint.mk 0 0)).ts,
      standardDeviationSq (extractWindowReturns lrs i window)⟩)

/-- `FxVolatilityUseCase.calculateVolatilityMetrics`: skipped entirely when
there are fewer than 30 log returns (`VOLATILITY_WINDOWS[1]`), else both
windows 7 and 30 are computed. -/
def calculateVolatilityMetrics (sortedUsd lrs : List SeriesPoint) :
    List VolResult :=
  if lrs.length < 30 then []
  else [7, 30].flatMap (fun window => calculateVolatilityForWindow sortedUsd lrs window)

/-- The volatility half of `FxVolatilityUseCase.execute` (the trend metrics
are a different metric family): gate on at least 30 input points, sort, take
log returns, compute the windows. -/
def fxVolatilityResults (lg : Rat → Rat) (usdOfficial : List SeriesPoint) :
    List VolResult :=
  if usdOfficial.length < 30 then []
  else calculateVolatilityMetrics (sortByDate usdOfficial) (calculateLogReturns lg usdOfficial)

/-! ## FX local pressure (FxLocalPressureUseCase, src/application/usecases/deltaReserves.use-case.ts) -/

/-- One `fx.local_pressure_30d.usd` metric point with the metadata
normalizations. -/
structure PressureResult where
  ts : Int
  value : Rat
  usdNormalization : Rat
  basketNormalization : Rat
deriving DecidableEq, Repr

/-- `FxLocalPressureUseCase.normalizeValue`: `current / reference - 1`,
`null` when the reference is 0. -/
def normalizeValue (current reference : Rat) : Option Rat :=
  if reference = 0 then none else some (current / reference - 1)

/-- `FxLocalPressureUseCase.getAvailableBasketCurrencies`: the basket members
that are present and non-empty, in the order brl, clp, mxn, cop. -/
def getAvailableBasketCurrencies (brl clp mxn cop : Option (List SeriesPoint)) :
    List (List SeriesPoint) :=
  (([brl, clp, mxn, cop].filterMap id).filter (fun s => 0 < s.length))

/-- `FxLocalPressureUseCase.calculateBasketNormalization`: normalize each
usable basket member and average; `null` when none is usable. -/
def calculateBasketNormalization (basketPrices : List (List Rat))
    (currentIndex referenceIndex : Nat) : Option Rat :=
  let norms := basketPrices.filterMap (fun series =>
    match series.get? currentIndex, series.get? referenceIndex with
    | some current, some ref => normalizeValue current ref
    | _, _ => none)
  if norms.length = 0 then none
  else some (norms.foldl (fun sum v => sum + v) 0 / (norms.length : Rat))

/-- `FxLocalPressureUseCase.calculateLocalPressureForAlignedData`: for each
`i = 29 .. alignedUsd.length - 1`, with reference index `i - 29`, emit the
difference of the USD normalization and the basket normalization, skipping the
date if either normalization is `null`. -/
def calculateLocalPressureForAlignedData (alignedUsd : List SeriesPoint)
    (alignedBasket : List (List SeriesPoint)) : List PressureResult :=
  let basketPrices := alignedBasket.map (fun series => series.map SeriesPoint.value)
  let usdPrices := alignedUsd.map SeriesPoint.value
  ((List.range alignedUsd.length).drop (30 - 1)).filterMap (fun i =>
    let referenceIndex := i - 30 + 1
    match (match usdPrices.get? i, usdPrices.get? referenceIndex with
           | some current, some ref => normalizeValue current ref
           | _, _ => none) with
    | none => none
    | some usdNorm =>
        match calculateBasketNormalization basketPrices i referenceIndex with
        | none => none
        | some basketNorm =>
            some ⟨(alignedUsd.getD i (SeriesPoint.mk 0 0)).ts, usdNorm - basketNorm,
              usdNorm, basketNorm⟩)

/-- The pure computation of `FxLocalPressureUseCase.execute`: skip everything
when fewer than two basket members are usable; align USD with the basket; skip
everything when the aligned history is empty or shorter than the 30-day
window. -/
def fxLocalPressureResults (usd : List SeriesPoint)
    (brl clp mxn cop : Option (List SeriesPoint)) : List PressureResult :=
  let basketCurrencies := getAvailableBasketCurrencies brl clp mxn cop
  if basketCurrencies.length < 2 then []
  else
    match alignMultipleSeries (usd :: basketCurrencies) with
    | [] => []
    | alignedUsd :: alignedBasket =>
        if alignedUsd.length = 0 then []
        else if alignedUsd.length < 30 then []
        else calculateLocalPressureForAlignedData alignedUsd alignedBasket

/-! ## Reserves backing (ReservesBackingUseCase, src/application/usecases/deltaReserves.use-case.ts) -/

/-- One `ratio.reserves_to_base` metric point with the metadata fields
`reserves_usd`, `base_ars`, `usd_official` as recorded by
`createReservesToBaseResult`. -/
structure BackingResult where
  ts : Int
  value : Rat
  reservesUsd : Rat
  baseArs : Rat
  usdOfficial : Rat
deriving DecidableEq, Repr

/-- `ReservesBackingUseCase.alignMainSeries`, exactly as written in the
source: `alignedReserves` and `alignedUsdOfficial` come from aligning
(reserves ∩ base) with usdOfficial, while `alignedBase` is assigned
`alignSeries(base, usdOfficial).series2` — the *second* component, which
carries the usdOfficial values over the base ∩ usdOfficial dates. -/
def alignMainSeries (reserves base usdOfficial : List SeriesPoint) :
    List SeriesPoint × List SeriesPoint × List SeriesPoint :=
  let alignedMain := alignSeries (alignSeries reserves base).1 usdOfficial
  let alignedReserves := alignedMain.1
  let alignedBase := (alignSeries base usdOfficial).2
  let alignedUsdOfficial := alignedMain.2
  (alignedReserves, alignedBase, alignedUsdOfficial)

/-- `ReservesBackingUseCase.calculateReservesToBaseRatio` and its helpers
(`extractMainSeriesData`, `canCalculateReservesToBase` = `usdOfficial > 0`,
`computeReservesToBaseRatio` = `reserves / (base / usdOfficial)`): one result
per index of the aligned reserves series. -/
def calculateReservesToBase (reserves base usdOfficial : List SeriesPoint) :
    List BackingResult :=
  let aligned := alignMainSeries reserves base usdOfficial
  (List.range aligned.1.length).filterMap (fun i =>
    let dReserves := (aligned.1.getD i (SeriesPoint.mk 0 0)).value
    let dBase := (aligned.2.1.getD i (SeriesPoint.mk 0 0)).value
    let dUsd := (aligned.2.2.getD i (SeriesPoint.mk 0 0)).value
    let dTs := (aligned.1.getD i (SeriesPoint.mk 0 0)).ts
    if 0 < dUsd then
      some ⟨dTs, dReserves / (dBase / dUsd), dReserves, dBase, dUsd⟩
    else none)

/-! ## Data health coverage (DataHealthUseCase, src/application/usecases/computeMetrics.dual.ts) -/

/-- `DataHealthUseCase.countBusinessDaysInPeriod` day loop over `n` days
starting at `s`: count the business days on which some point carries that
date. -/
def countBusinessDaysWithDataAux (hol : List Int) (points : List SeriesPoint) :
    Nat → Int → Nat
  | 0, _ => 0
  | n + 1, s =>
      (if isBusinessDay hol s && points.any (fun p => p.ts == s) then 1 else 0) +
        countBusinessDaysWithDataAux hol points n (s + 1)

/-- `DataHealthUseCase.countBusinessDaysInPeriod`: walk every calendar day
from `startDate` to `endDate` inclusive. -/
def countBusinessDaysInPeriod (hol : List Int) (points : List SeriesPoint)
    (startDate endDate : Int) : Nat :=
  countBusinessDaysWithDataAux hol points (endDate + 1 - startDate).toNat startDate

/-- The value computed by `DataHealthUseCase.calculateCoverageMetric`: filter
the points to the trailing window `[today − 90 business days, today]`, count
the business days in the window that carry data, and divide by the constant
`COVERAGE_THRESHOLD_BUSINESS_DAYS = 90`. -/
def calculateCoverageValue (hol : List Int) (points : List SeriesPoint)
    (today : Int) : Rat :=
  let startW := subtractBusinessDays hol today 90
  let coveragePeriod := points.filter (fun p => startW ≤ p.ts && p.ts ≤ today)
  ((countBusinessDaysInPeriod hol coveragePeriod startW today : Rat) / 90)

/-- The calendar days of the coverage window `[today − 90 business days,
today]`, used to state the full-coverage hypothesis decidably. -/
def coverageWindowDays (hol : List Int) (today : Int) : List Int :=
  (List.range (today + 1 - subtractBusinessDays hol today 90).toNat).map
    (fun i : Nat => subtractBusinessDays hol today 90 + (i : Int))

/-! ## Dual-database metrics engine (DualDatabaseMetricsEngine, src/domain/services/metricsEngine.dual.ts) -/

/-- One `delta.reserves_7d` metric point of the dual engine. -/
structure R7Result where
  ts : Int
  value : Rat
  current : Rat
  previous : Rat
deriving DecidableEq, Repr

/-- `DualDatabaseMetricsEngine.computeReserves7d`. The source sorts
`inputs.reservas` **in place** (`inputs.reservas.sort(...)` — JS `sort`
mutates the array); the mutation is modelled by returning the final contents
of the input array as the first component. -/
def computeReserves7d (reservas : List SeriesPoint) :
    List SeriesPoint × List R7Result :=
  let sortedReservas := sortByDate reservas
  (sortedReservas,
    ((List.range sortedReservas.length).drop 7).filterMap (fun i =>
      let current := sortedReservas.getD i (SeriesPoint.mk 0 0)
      let previous := sortedReservas.getD (i - 7) (SeriesPoint.mk 0 0)
      if previous.value ≠ 0 then
        some ⟨current.ts, (current.value - previous.value) / previous.value,
          current.value, previous.value⟩
      else none))

/-- The array state of the `DeltaBaseUseCase` pipeline after a run:
`prepareBaseData` sorts a **copy** (`[...points].sort` inside
`SeriesUtils.sortByDate`), so the input array is left untouched. -/
def deltaBaseRun (base : List SeriesPoint) : List SeriesPoint × List DeltaResult :=
  (base, deltaBaseResults base)

/-! ## Spec-side definitions (for refinement-style comparisons) -/

/-- Modelled from the spec: membership of a date in the full N-way
intersection of the date sets of all input series. -/
def inAllDates (l : List (List SeriesPoint)) (d : Int) : Bool :=
  l.all (fun s => s.any (fun p => p.ts == d))

/-- Modelled from the spec: the dates of the full N-way intersection, without
duplicates, in ascending order. -/
def canonicalDates (l : List (List SeriesPoint)) : List Int :=
  List.insertionSort (fun a b : Int => a ≤ b)
    ((mapKeys (toMap (l.headD []))).filter (fun d => inAllDates l d))

/-- Modelled from the spec: the aligned sequence for one input series — one
point per intersection date, in ascending date order, carrying that series'
value at the date. -/
def canonicalAligned (l : List (List SeriesPoint)) (s : List SeriesPoint) :
    List SeriesPoint :=
  (canonicalDates l).map (fun d => SeriesPoint.mk d ((mapGet (toMap s) d).getD 0))

/-- Modelled from the spec: the population variance — squared deviations from
the mean, summed, divided by N (not N − 1). -/
def popVarianceSpec (xs : List Rat) : Rat :=
  (xs.map (fun x => (x - xs.sum / (xs.length : Rat)) ^ 2)).sum / (xs.length : Rat)

/-- C1 witness input: a point at day 20000 (2024-10-04) with raw value
5,300,000 and a point exactly 30 business days earlier with raw value
5,500,000. -/
def c1Base : List SeriesPoint :=
  [SeriesPoint.mk 20000 5300000,
   SeriesPoint.mk (subtractBusinessDays allHolidays 20000 30) 5500000]

/-- C5 witness input: the reference point 30 business days before day 20000
carries the raw value 0. -/
def c5Base : List SeriesPoint :=
  [SeriesPoint.mk 20000 5300000,
   SeriesPoint.mk (subtractBusinessDays allHolidays 20000 30) 0]

/-- C6 witness input: 31 consecutive days of a constant positive price. -/
def c6Usd : List SeriesPoint :=
  (List.range 31).map (fun i => SeriesPoint.mk (i : Int) 1)

/-- C4 counterexample input: a data point on every business day of the
trailing window of day 20000 (2024-10-04, a Friday and not a holiday). -/
def c4Points : List SeriesPoint :=
  ((coverageWindowDays allHolidays 20000).filter
    (fun d => isBusinessDay allHolidays d)).map (fun d => SeriesPoint.mk d 1)

/-- The common-dates list built inside `alignSeries` (keys of the first map
that the second map also has). -/
def commonDatesOf (a b : List SeriesPoint) : List Int :=
  (mapKeys (toMap a)).filter (fun d => mapHas (toMap b) d)

instance seriesLtAntisymm : IsAntisymm SeriesPoint (fun a b => a.ts < b.ts) :=
  ⟨fun _ _ h1 h2 => absurd (lt_trans h1 h2) (lt_irrefl _)⟩

/-! ### Calendar lemmas -/

theorem prevGo_some_spec (hol : List Int) :
    ∀ (fuel : Nat) (d b : Int), prevBusinessDayGo hol fuel d = some b →
      isBusinessDay hol b = true ∧ b ≤ d ∧
        ∀ x : Int, b < x → x ≤ d → isBusinessDay hol x = false := by
  intro fuel
  induction fuel with
  | zero => intro d b h; simp [prevBusinessDayGo] at h
  | succ n ih =>
    intro d b h
    simp only [prevBusinessDayGo] at h
    by_cases hb : isBusinessDay hol d = true
    · rw [if_pos hb] at h
      injection h with h
      subst h
      refine ⟨hb, le_refl _, fun x hx1 hx2 => absurd (lt_of_lt_of_le hx1 hx2) (lt_irrefl _)⟩
    · rw [if_neg hb] at h
      obtain ⟨h1, h2, h3⟩ := ih (d - 1) b h
      refine ⟨h1, by omega, fun x hx1 hx2 => ?_⟩
      by_cases hxd : x = d
      · subst hxd; simpa using hb
      · exact h3 x hx1 (by omega)

theorem prevGo_isSome_of_exists (hol : List Int) :
    ∀ (fuel : Nat) (d : Int),
      (∃ j : Nat, j < fuel ∧ isBusinessDay hol (d - j) = true) →
      (prevBusinessDayGo hol fuel d).isSome = true := by
  intro fuel
  induction fuel with
  | zero => rintro d ⟨j, hj, _⟩; omega
  | succ n ih =>
    rintro d ⟨j, hj, hb⟩
    simp only [prevBusinessDayGo]
    by_cases h : isBusinessDay hol d = true
    · rw [if_pos h]; rfl
    · rw [if_neg h]
      apply ih
      match j, hj, hb with
      | 0, _, hb => simp at hb; exact absurd hb h
      | j' + 1, hj, hb =>
        refine ⟨j', by omega, ?_⟩
        have : d - 1 - (j' : Int) = d - ((j' : Int) + 1) := by ring
        rw [this]
        simpa using hb

/-- In any 7 consecutive days ending at `start` going down, there is a Monday. -/
theorem exists_monday (start : Int) :
    ∃ j : Nat, j < 7 ∧ dayOfWeek (start - j) = 1 := by
  refine ⟨((start + 3) % 7).toNat, ?_, ?_⟩
  · omega
  · simp only [dayOfWeek]
    omega

/-- A Monday is not a weekend. -/
theorem monday_not_weekend {d : Int} (h : dayOfWeek d = 1) : isWeekend d = false := by
  simp [isWeekend, h]

/-- Pigeonhole: a finite holiday table cannot cover the `hol.length + 1`
distinct Mondays found in a window of `prevFuel hol` consecutive days, so the
window contains a business day. -/
theorem exists_businessDay_in_window (hol : List Int) (start : Int) :
    ∃ j : Nat, j < prevFuel hol ∧ isBusinessDay hol (start - j) = true := by
  obtain ⟨j0, hj0, hmon⟩ := exists_monday start
  set h := hol.length with hh
  -- the Mondays start - j0 - 7k for k = 0 .. h
  by_cases hall : ∀ k ∈ Finset.range (h + 1), (start - j0 - 7 * k) ∈ hol
  · -- impossible: h+1 distinct values inside a list of length h
    exfalso
    have hinj : Function.Injective (fun k : Nat => start - j0 - 7 * (k : Int)) := by
      intro a b hab
      simp only at hab
      omega
    have hsub : (Finset.range (h + 1)).image (fun k : Nat => start - j0 - 7 * (k : Int))
        ⊆ hol.toFinset := by
      intro x hx
      simp only [Finset.mem_image] at hx
      obtain ⟨k, hk, rfl⟩ := hx
      simp only [List.mem_toFinset]
      exact hall k hk
    have hcard := Finset.card_le_card hsub
    rw [Finset.card_image_of_injective _ hinj, Finset.card_range] at hcard
    have := List.toFinset_card_le hol
    omega
  · push_neg at hall
    obtain ⟨k, hk, hknot⟩ := hall
    simp only [Finset.mem_range] at hk
    refine ⟨j0 + 7 * k, ?_, ?_⟩
    · simp only [prevFuel]; omega
    · have hd : start - (j0 + 7 * k : Nat) = start - j0 - 7 * k := by
        push_cast; ring
      rw [hd]
      have hw : dayOfWeek (start - j0 - 7 * k) = 1 := by
        simp only [dayOfWeek] at hmon ⊢
        omega
      simp only [isBusinessDay, monday_not_weekend hw, Bool.not_false, Bool.true_and,
        Bool.not_eq_true', List.contains, List.elem_eq_mem]
      exact decide_eq_false hknot

/-- The bounded search of `previousBusinessDay` always succeeds. -/
theorem prevGo_total (hol : List Int) (d : Int) :
    (prevBusinessDayGo hol (prevFuel hol) d).isSome = true :=
  prevGo_isSome_of_exists hol (prevFuel hol) d (exists_businessDay_in_window hol d)

/-- Full specification of `previousBusinessDay`: it is a business day, it is
strictly below the input, and no day strictly between the two is a business
day. -/
theorem previousBusinessDay_spec (hol : List Int) (d : Int) :
    isBusinessDay hol (previousBusinessDay hol d) = true ∧
      previousBusinessDay hol d ≤ d - 1 ∧
      ∀ x : Int, previousBusinessDay hol d < x → x ≤ d - 1 →
        isBusinessDay hol x = false := by
  have htot := prevGo_total hol (d - 1)
  obtain ⟨b, hb⟩ := Option.isSome_iff_exists.mp htot
  have hspec := prevGo_some_spec hol (prevFuel hol) (d - 1) b hb
  have hpb : previousBusinessDay hol d = b := by
    simp [previousBusinessDay, hb]
  rw [hpb]
  exact hspec

theorem subtractBusinessDays_le (hol : List Int) (d : Int) :
    ∀ n : Nat, subtractBusinessDays hol d n ≤ d := by
  intro n
  induction n with
  | zero => simp [subtractBusinessDays]
  | succ m ih =>
    have h := (previousBusinessDay_spec hol (subtractBusinessDays hol d m)).2.1
    simp only [subtractBusinessDays]
    omega

theorem subtractBusinessDays_lt (hol : List Int) (d : Int) (n : Nat) (hn : 1 ≤ n) :
    subtractBusinessDays hol d n < d := by
  match n, hn with
  | m + 1, _ =>
    have h := (previousBusinessDay_spec hol (subtractBusinessDays hol d m)).2.1
    have h2 := subtractBusinessDays_le hol d m
    simp only [subtractBusinessDays]
    omega

/-- C10 claim theorem, stated below after the remaining lemmas. -/
theorem subtractBusinessDays_isBusiness (hol : List Int) (d : Int) (n : Nat)
    (hn : 1 ≤ n) : isBusinessDay hol (subtractBusinessDays hol d n) = true := by
  match n, hn with
  | m + 1, _ =>
    exact (previousBusinessDay_spec hol (subtractBusinessDays hol d m)).1

/-- C10: for every input date, the `previousBusinessDay` search loop
terminates (the bounded search returns a value within `prevFuel hol` steps,
because every 7 consecutive days contain a weekday and the holiday table is a
finite list), and it returns a business day strictly earlier than the input;
consequently `subtractBusinessDays` is total and returns a business day for
every `n ≥ 1`. -/
theorem previousBusinessDay_terminates (hol : List Int) (d : Int) (n : Nat)
    (hn : 1 ≤ n) :
    (prevBusinessDayGo hol (prevFuel hol) (d - 1)).isSome = true ∧
      isBusinessDay hol (previousBusinessDay hol d) = true ∧
      previousBusinessDay hol d < d ∧
      isBusinessDay hol (subtractBusinessDays hol d n) = true := by
  have h := previousBusinessDay_spec hol d
  exact ⟨prevGo_total hol (d - 1), h.1, by omega,
    subtractBusinessDays_isBusiness hol d n hn⟩

/-- C10 witness: the theorem applied to the program's holiday table at a
concrete date (day 20000 = 2024-10-04) and `n = 1`. -/
theorem previousBusinessDay_terminates_witness :
    1 ≤ 1 ∧
      ((prevBusinessDayGo allHolidays (prevFuel allHolidays) (20000 - 1)).isSome = true ∧
        isBusinessDay allHolidays (previousBusinessDay allHolidays 20000) = true ∧
        previousBusinessDay allHolidays 20000 < 20000 ∧
        isBusinessDay allHolidays (subtractBusinessDays allHolidays 20000 1) = true) :=
  ⟨le_refl 1, previousBusinessDay_terminates allHolidays 20000 1 (le_refl 1)⟩

/-! ## Generic list lemmas -/

theorem length_filterMap_eq_countP {α β : Type} (f : α → Option β) (l : List α) :
    (l.filterMap f).length = l.countP (fun a => (f a).isSome) := by
  induction l with
  | nil => rfl
  | cons a t ih =>
    rw [List.filterMap_cons, List.countP_cons]
    cases h : f a with
    | none => simp [h, ih]
    | some b => simp [h, ih, Nat.add_comm]

theorem countP_zip_tail {α : Type} (p : α → Bool) (l : List α) :
    (l.zip l.tail).countP (fun ab => p ab.1) = l.dropLast.countP p := by
  induction l with
  | nil => rfl
  | cons a t ih =>
    cases t with
    | nil => rfl
    | cons b u =>
      have h := ih
      simp only [List.zip_cons_cons, List.tail_cons] at h ⊢
      rw [List.countP_cons]
      have hdrop : (a :: b :: u).dropLast = a :: (b :: u).dropLast := by
        simp [List.dropLast]
      rw [hdrop, List.countP_cons]
      have hfst : p (a, b).1 = p a := rfl
      rw [hfst, h]

/-! ## C8: side effects of calculators on their inputs -/

/-- C8 (amended): calculators built on `SeriesUtils.sortByDate` sort a copy
and leave the input array untouched (the `DeltaBaseUseCase` run returns its
input state unchanged), and every calculator preserves the input's contents as
a multiset; but `DualDatabaseMetricsEngine.computeReserves7d` sorts
`inputs.reservas` in place, so the final state of that input array is its
sorted permutation, which in general differs from the original element
order. -/
theorem calculators_input_state (reservas base : List SeriesPoint) :
    (computeReserves7d reservas).1 = sortByDate reservas ∧
      ((computeReserves7d reservas).1).Perm reservas ∧
      (deltaBaseRun base).1 = base :=
  ⟨rfl, List.perm_insertionSort _ reservas, rfl⟩

/-- C8 counterexample: on an input that is not already date-sorted,
`computeReserves7d` leaves the input array in a different element order than
it was given, so the claim that every calculator leaves input element order
unchanged is false. -/
theorem computeReserves7d_mutates_input :
    (computeReserves7d [SeriesPoint.mk 2 1, SeriesPoint.mk 1 1]).1
      ≠ [SeriesPoint.mk 2 1, SeriesPoint.mk 1 1] := by
  decide

/-! ## C9: local-pressure skip conditions -/

/-- C9: the local-pressure calculator emits nothing when fewer than two basket
series are usable, and emits nothing when the aligned common history of the
target and the basket is shorter than the 30-business-day window. -/
theorem localPressure_skips (usd : List SeriesPoint)
    (brl clp mxn cop : Option (List SeriesPoint))
    (h : (getAvailableBasketCurrencies brl clp mxn cop).length < 2 ∨
      ((alignMultipleSeries
          (usd :: getAvailableBasketCurrencies brl clp mxn cop)).headD []).length < 30) :
    fxLocalPressureResults usd brl clp mxn cop = [] := by
  unfold fxLocalPressureResults
  by_cases h2 : (getAvailableBasketCurrencies brl clp mxn cop).length < 2
  · simp [h2]
  · simp only [if_neg h2]
    rcases h with h | h
    · exact absurd h h2
    · cases hal : alignMultipleSeries
          (usd :: getAvailableBasketCurrencies brl clp mxn cop) with
      | nil => rfl
      | cons u rest =>
        rw [hal] at h
        simp only [List.headD_cons] at h
        by_cases hz : u.length = 0
        · simp [hz]
        · simp [hz, h]

/-- C9 witness: with no basket currencies supplied, fewer than two are usable
and the calculator emits nothing. -/
theorem localPressure_skips_witness :
    ((getAvailableBasketCurrencies none none none none).length < 2 ∨
      ((alignMultipleSeries
          ([] :: getAvailableBasketCurrencies none none none none)).headD []).length < 30) ∧
      fxLocalPressureResults [] none none none none = [] :=
  ⟨Or.inl (by decide),
    localPressure_skips [] none none none none (Or.inl (by decide))⟩

/-! ## C7: log returns -/

/-- C7 (amended): `StatisticsService.logReturns` emits `lg(p[i+1]/p[i])`
exactly for the consecutive pairs in which both prices are strictly positive —
so for an input of length ≥ 2 the output length equals `len − 1` if and only
if all prices are strictly positive, and every emitted value is `lg` of a
ratio of two strictly positive prices (hence never the logarithm of a
non-positive number, the only way `Math.log` yields NaN/−∞).
`SeriesUtils.calculateLogReturns`, however, only skips a pair when the
*earlier* price is exactly 0: its output length is the number of points among
the first `len − 1` (after date-sorting) with nonzero value, regardless of
sign. -/
theorem logReturns_spec (lg : Rat → Rat) (prices : List Rat)
    (h2 : 2 ≤ prices.length) :
    ((logReturns lg prices).length = prices.length - 1 ↔ ∀ p ∈ prices, 0 < p) ∧
      (∀ v ∈ logReturns lg prices, ∃ i : Nat, i + 1 < prices.length ∧
        0 < prices.getD i 0 ∧ 0 < prices.getD (i + 1) 0 ∧
        v = lg (prices.getD (i + 1) 0 / prices.getD i 0)) ∧
      (∀ series : List SeriesPoint, 2 ≤ series.length →
        (calculateLogReturns lg series).length
          = ((sortByDate series).dropLast).countP (fun p => p.value != 0)) := by
  have hlen2 : ¬ prices.length < 2 := by omega
  have hzlen : (prices.zip prices.tail).length = prices.length - 1 := by
    rw [List.length_zip, List.length_tail]
    omega
  refine ⟨?_, ?_, ?_⟩
  · -- length characterization
    rw [logReturns, if_neg hlen2, length_filterMap_eq_countP]
    have hsome : ∀ ab : Rat × Rat,
        ((if 0 < ab.1 ∧ 0 < ab.2 then some (lg (ab.2 / ab.1)) else none).isSome)
          = decide (0 < ab.1 ∧ 0 < ab.2) := by
      intro ab
      by_cases h : 0 < ab.1 ∧ 0 < ab.2 <;> simp [h]
    simp only [hsome]
    constructor
    · intro hcount p hp
      have hall : ∀ ab ∈ prices.zip prices.tail, decide (0 < ab.1 ∧ 0 < ab.2) = true := by
        have := List.countP_eq_length.mp (by rw [hcount, hzlen])
        exact this
      obtain ⟨i, hi, rfl⟩ := List.mem_iff_getElem.mp hp
      by_cases hilast : i + 1 < prices.length
      · have hiz : i < (prices.zip prices.tail).length := by omega
        have hmem : (prices.zip prices.tail)[i] ∈ prices.zip prices.tail :=
          List.getElem_mem hiz
        have := hall _ hmem
        rw [List.getElem_zip, List.getElem_tail] at this
        simp only [decide_eq_true_eq] at this
        exact this.1
      · -- i is the last index: second component of pair i − 1
        have hi1 : i = prices.length - 1 := by omega
        have hiz : i - 1 < (prices.zip prices.tail).length := by omega
        have hmem : (prices.zip prices.tail)[i - 1] ∈ prices.zip prices.tail :=
          List.getElem_mem hiz
        have := hall _ hmem
        rw [List.getElem_zip, List.getElem_tail] at this
        simp only [decide_eq_true_eq] at this
        have hieq : i - 1 + 1 = i := by omega
        simp only [hieq] at this
        exact this.2
    · intro hpos
      rw [← hzlen]
      apply List.countP_eq_length.mpr
      intro ab hab
      obtain ⟨ha, hb⟩ := List.of_mem_zip hab
      have hb' : ab.2 ∈ prices := List.mem_of_mem_tail hb
      simp only [decide_eq_true_eq]
      exact ⟨hpos _ ha, hpos _ hb'⟩
  · -- every emitted value is lg of a positive ratio
    intro v hv
    rw [logReturns, if_neg hlen2] at hv
    obtain ⟨ab, hab, habv⟩ := List.mem_filterMap.mp hv
    by_cases h : 0 < ab.1 ∧ 0 < ab.2
    · rw [if_pos h] at habv
      injection habv with habv
      obtain ⟨i, hi, hieq⟩ := List.mem_iff_getElem.mp hab
      rw [List.getElem_zip, List.getElem_tail] at hieq
      have hi1 : i + 1 < prices.length := by
        rw [hzlen] at hi; omega
      refine ⟨i, hi1, ?_, ?_, ?_⟩
      · rw [List.getD_eq_getElem prices 0 (by omega)]
        have : prices[i] = ab.1 := by rw [← hieq]
        rw [this]; exact h.1
      · rw [List.getD_eq_getElem prices 0 hi1]
        have : prices[i + 1] = ab.2 := by rw [← hieq]
        rw [this]; exact h.2
      · rw [List.getD_eq_getElem prices 0 hi1, List.getD_eq_getElem prices 0 (by omega)]
        have h1 : prices[i] = ab.1 := by rw [← hieq]
        have h2 : prices[i + 1] = ab.2 := by rw [← hieq]
        rw [h1, h2, ← habv]
    · rw [if_neg h] at habv
      exact absurd habv (by simp)
  · -- the SeriesUtils variant counts exactly the nonzero earlier prices
    intro series hs2
    have hs2' : ¬ series.length < 2 := by omega
    rw [calculateLogReturns, if_neg hs2', length_filterMap_eq_countP]
    have hsome : ∀ ab : SeriesPoint × SeriesPoint,
        ((if ab.1.value ≠ 0 then
            some (SeriesPoint.mk ab.2.ts (lg (ab.2.value / ab.1.value)))
          else none).isSome)
          = (ab.1.value != 0) := by
      intro ab
      by_cases h : ab.1.value = 0 <;> simp [h]
    simp only [hsome]
    exact countP_zip_tail (fun p => p.value != 0) (sortByDate series)

/-- C7 counterexample: `SeriesUtils.calculateLogReturns` does **not** skip a
pair whose later price is negative (the guard only checks the earlier price
against 0): on prices 1 then −1 it still emits one log return, contradicting
the claim that every pair with a price ≤ 0 is skipped. -/
theorem calculateLogReturns_emits_nonpositive_pair :
    (calculateLogReturns (fun x => x)
        [SeriesPoint.mk 1 1, SeriesPoint.mk 2 (-1)]).length = 1 ∧
      ¬ (0 < (-1 : Rat)) := by
  constructor
  · decide
  · decide

/-- C7 witness: the amended theorem at concrete prices 1, 2, 4 (all positive):
hypotheses hold and the emitted-length equivalence applies. -/
theorem logReturns_spec_witness :
    2 ≤ ([1, 2, 4] : List Rat).length ∧
      (((logReturns (fun x => x) [1, 2, 4]).length = ([1, 2, 4] : List Rat).length - 1
          ↔ ∀ p ∈ ([1, 2, 4] : List Rat), 0 < p) ∧
        (∀ v ∈ logReturns (fun x => x) [1, 2, 4], ∃ i : Nat,
          i + 1 < ([1, 2, 4] : List Rat).length ∧
          0 < ([1, 2, 4] : List Rat).getD i 0 ∧
          0 < ([1, 2, 4] : List Rat).getD (i + 1) 0 ∧
          v = (fun x => x) (([1, 2, 4] : List Rat).getD (i + 1) 0
                / ([1, 2, 4] : List Rat).getD i 0)) ∧
        (∀ series : List SeriesPoint, 2 ≤ series.length →
          (calculateLogReturns (fun x => x) series).length
            = ((sortByDate series).dropLast).countP (fun p => p.value != 0))) :=
  ⟨by decide, logReturns_spec (fun x => x) [1, 2, 4] (by decide)⟩

/-! ## C2: reserves-to-base backing -/

/-- C2 (code bug): on the spec's own example — reserves 45000, base 53000,
fx 1200, all on the same single date — `calculateReservesToBaseRatio` emits
the value 45000, not `reserves / (base / fxRate)`: `alignMainSeries` assigns
`alignSeries(base, usdOfficial).series2` (the usdOfficial-valued side) to
`alignedBase`, so the "base" slot carries the FX value 1200 and the computed
ratio is `45000 / (1200 / 1200)`. The recorded metadata shows `base_ars =
1200`. For contrast, the claimed formula evaluates to `54000000 / 53000`
(≈ 1018.87, also not the claimed ≈ 1.0189), and neither equals the emitted
45000. -/
theorem reservesToBase_wrong_series :
    calculateReservesToBase [SeriesPoint.mk 20000 45000]
        [SeriesPoint.mk 20000 53000] [SeriesPoint.mk 20000 1200]
      = [⟨20000, 45000, 45000, 1200, 1200⟩] ∧
      (45000 : Rat) / ((53000 : Rat) / 1200) = 54000000 / 53000 ∧
      (45000 : Rat) ≠ (54000000 : Rat) / 53000 ∧
      1000 < (54000000 : Rat) / 53000 := by
  refine ⟨?_, by norm_num, by norm_num, by norm_num⟩
  have h : calculateReservesToBase [SeriesPoint.mk 20000 45000]
      [SeriesPoint.mk 20000 53000] [SeriesPoint.mk 20000 1200]
      = [⟨20000, (45000 : Rat) / ((1200 : Rat) / 1200), 45000, 1200, 1200⟩] := by
    rfl
  rw [h]
  have hv : (45000 : Rat) / ((1200 : Rat) / 1200) = 45000 := by norm_num
  rw [hv]

/-! ## C1 / C5: delta-base lemmas -/

/-- On a series whose dates are pairwise distinct, the first-match date lookup
finds exactly the member carrying that date. -/
theorem find?_eq_of_nodup_mem (l : List SeriesPoint) (q : SeriesPoint)
    (hnd : (l.map SeriesPoint.ts).Nodup) (hq : q ∈ l) :
    l.find? (fun p => p.ts == q.ts) = some q := by
  induction l with
  | nil => cases hq
  | cons a t ih =>
    rw [List.map_cons, List.nodup_cons] at hnd
    rw [List.find?_cons]
    by_cases ha : a.ts = q.ts
    · have hbeq : (a.ts == q.ts) = true := by simpa using ha
      rw [hbeq]
      rcases List.mem_cons.mp hq with rfl | hqt
      · rfl
      · exfalso
        apply hnd.1
        rw [ha]
        exact List.mem_map_of_mem SeriesPoint.ts hqt
    · have hbeq : (a.ts == q.ts) = false := by simpa using ha
      rw [hbeq]
      apply ih hnd.2
      rcases List.mem_cons.mp hq with rfl | hqt
      · exact absurd rfl ha
      · exact hqt

/-- Unfolding equation for `findReferencePoint` with `getValueAtDate`
inlined. -/
theorem findReferencePoint_def (sortedBase : List SeriesPoint)
    (currentPoint : SeriesPoint) (windowDays : Nat) :
    findReferencePoint sortedBase currentPoint windowDays
      = match (sortedBase.find? (fun r => r.ts ==
            subtractBusinessDays allHolidays currentPoint.ts windowDays)).map
            SeriesPoint.value with
        | none => none
        | some _ => (sortedBase.find? (fun r => r.ts ==
            subtractBusinessDays allHolidays currentPoint.ts windowDays)).map
            (fun p => (p, subtractBusinessDays allHolidays currentPoint.ts windowDays)) :=
  rfl

/-- Inversion of `findReferencePoint`: a successful lookup returns a member of
the series carrying exactly the reference date, and `getValueAtDate` at the
reference date returns that member's value. -/
theorem findReferencePoint_inv (sorted : List SeriesPoint) (p : SeriesPoint)
    (w : Nat) (q : SeriesPoint × Int)
    (h : findReferencePoint sorted p w = some q) :
    q.2 = subtractBusinessDays allHolidays p.ts w ∧ q.1 ∈ sorted ∧
      q.1.ts = q.2 ∧
      getValueAtDate sorted (subtractBusinessDays allHolidays p.ts w)
        = some q.1.value := by
  rw [findReferencePoint_def] at h
  cases hf : sorted.find?
      (fun r => r.ts == subtractBusinessDays allHolidays p.ts w) with
  | none => rw [hf] at h; cases h
  | some r =>
    rw [hf] at h
    simp only [Option.map_some'] at h
    injection h with h
    subst h
    refine ⟨rfl, List.mem_of_find?_eq_some hf, ?_, ?_⟩
    · have := List.find?_some hf
      simpa using this
    · rw [getValueAtDate, hf]
      rfl

/-- Conversely, when the sorted series has pairwise-distinct dates and a
member `q` carries the reference date, `findReferencePoint` returns exactly
`(q, reference date)`. -/
theorem findReferencePoint_eq (sorted : List SeriesPoint) (p q : SeriesPoint)
    (w : Nat) (hnd : (sorted.map SeriesPoint.ts).Nodup) (hq : q ∈ sorted)
    (hqd : q.ts = subtractBusinessDays allHolidays p.ts w) :
    findReferencePoint sorted p w
      = some (q, subtractBusinessDays allHolidays p.ts w) := by
  have hfind : sorted.find?
      (fun r => r.ts == subtractBusinessDays allHolidays p.ts w) = some q := by
    rw [← hqd]
    exact find?_eq_of_nodup_mem sorted q hnd hq
  rw [findReferencePoint_def, hfind]
  rfl

/-- Membership inversion for the whole delta pipeline: every emitted result
arises from one window, one current point, and one nonzero reference point. -/
theorem deltaBase_mem_inv (base : List SeriesPoint) (r : DeltaResult)
    (hr : r ∈ deltaBaseResults base) :
    ∃ w, w ∈ [7, 30, 90] ∧ ∃ p, p ∈ sortByDate base ∧ ∃ q : SeriesPoint,
      findReferencePoint (sortByDate base) p w
          = some (q, subtractBusinessDays allHolidays p.ts w) ∧
        q.value ≠ 0 ∧
        r ∈ computeAbsoluteAndPercentageDeltas p
          (q, subtractBusinessDays allHolidays p.ts w) w := by
  rw [deltaBaseResults, calculateAllDeltas] at hr
  obtain ⟨w, hw, hrw⟩ := List.mem_flatMap.mp hr
  rw [calculateDeltasForWindow] at hrw
  obtain ⟨p, hp, hbody⟩ := List.mem_flatMap.mp hrw
  refine ⟨w, hw, p, hp, ?_⟩
  simp only at hbody
  cases href : findReferencePoint (sortByDate base) p w with
  | none =>
    rw [href] at hbody
    simp [canCalculateDelta] at hbody
  | some qd =>
    obtain ⟨q1, q2⟩ := qd
    rw [href] at hbody
    obtain ⟨hrd, _, _, _⟩ := findReferencePoint_inv _ p w _ href
    simp only at hrd
    subst hrd
    by_cases hz : q1.value = 0
    · have hfalse : canCalculateDelta
          (some (q1, subtractBusinessDays allHolidays p.ts w)) = false := by
        simp [canCalculateDelta, hz]
      rw [hfalse] at hbody
      simp at hbody
    · have hcan : canCalculateDelta
          (some (q1, subtractBusinessDays allHolidays p.ts w)) = true := by
        simp [canCalculateDelta, hz]
      rw [hcan] at hbody
      simp only [if_true] at hbody
      exact ⟨q1, rfl, hz, hbody⟩

/-- The two results emitted for one point: fields needed below. -/
theorem computeDeltas_fields (p : SeriesPoint) (q : SeriesPoint × Int) (w : Nat)
    (r : DeltaResult) (hr : r ∈ computeAbsoluteAndPercentageDeltas p q w) :
    r.window = w ∧ r.ts = p.ts ∧ r.reference = normalizeToMillions q.1.value := by
  rw [computeAbsoluteAndPercentageDeltas] at hr
  simp only [List.mem_cons, List.mem_singleton, List.not_mem_nil, or_false] at hr
  rcases hr with rfl | rfl <;> exact ⟨rfl, rfl, rfl⟩

theorem normalizeToMillions_ne_zero {v : Rat} (hv : v ≠ 0) :
    normalizeToMillions v ≠ 0 := by
  rw [normalizeToMillions]
  by_cases h : 1000000 < v
  · rw [if_pos h]
    intro hc
    rcases div_eq_zero_iff.mp hc with hc | hc
    · exact hv hc
    · norm_num at hc
  · rw [if_neg h]
    exact hv

/-- C1: on a date-sorted base-money series with pairwise-distinct dates, for
every window W ∈ {7, 30, 90}, whenever the point at date t has a companion
point exactly W business days back with nonzero value, the calculator emits
the absolute delta `scaled(current) − scaled(reference)` (scaled = divide by
1,000,000 exactly when the raw value exceeds 1,000,000) and the percentage
delta `(raw(current)/raw(reference) − 1) × 100` computed from the unscaled
values; and on the spec's example (current 5,300,000 vs reference 5,500,000)
the emitted percentage delta is within 0.001 of −3.636. -/
theorem deltaBase_emits (base : List SeriesPoint) (w : Nat)
    (hw : w ∈ [7, 30, 90]) (p q : SeriesPoint)
    (hnd : ((sortByDate base).map SeriesPoint.ts).Nodup)
    (hp : p ∈ sortByDate base) (hq : q ∈ sortByDate base)
    (hqd : q.ts = subtractBusinessDays allHolidays p.ts w)
    (hqv : q.value ≠ 0) :
    (⟨w, DeltaMode.abs, p.ts,
        normalizeToMillions p.value - normalizeToMillions q.value,
        normalizeToMillions p.value, normalizeToMillions q.value, q.ts⟩ : DeltaResult)
        ∈ deltaBaseResults base ∧
      (⟨w, DeltaMode.pct, p.ts, (p.value / q.value - 1) * 100,
        normalizeToMillions p.value, normalizeToMillions q.value, q.ts⟩ : DeltaResult)
        ∈ deltaBaseResults base ∧
      ∀ (t rd : Int), ∀ pr ∈ computeAbsoluteAndPercentageDeltas
          (SeriesPoint.mk t 5300000) (SeriesPoint.mk rd 5500000, rd) 30,
        pr.mode = DeltaMode.pct → |pr.value + 3636 / 1000| < 1 / 1000 := by
  have href := findReferencePoint_eq (sortByDate base) p q w hnd hq hqd
  have hcan : canCalculateDelta
      (some (q, subtractBusinessDays allHolidays p.ts w)) = true := by
    simp [canCalculateDelta, hqv]
  have hmem : ∀ r ∈ computeAbsoluteAndPercentageDeltas p
      (q, subtractBusinessDays allHolidays p.ts w) w,
      r ∈ deltaBaseResults base := by
    intro r hr
    rw [deltaBaseResults, calculateAllDeltas]
    apply List.mem_flatMap.mpr
    refine ⟨w, hw, ?_⟩
    rw [calculateDeltasForWindow]
    apply List.mem_flatMap.mpr
    refine ⟨p, hp, ?_⟩
    simp only [href, hcan, if_true]
    exact hr
  refine ⟨?_, ?_, ?_⟩
  · apply hmem
    rw [computeAbsoluteAndPercentageDeltas]
    simp only [← hqd]
    exact List.mem_cons_self _ _
  · apply hmem
    rw [computeAbsoluteAndPercentageDeltas]
    simp only [← hqd]
    exact List.mem_cons.mpr (Or.inr (List.mem_cons_self _ _))
  · intro t rd pr hpr hmode
    rw [computeAbsoluteAndPercentageDeltas] at hpr
    simp only [List.mem_cons, List.mem_singleton, List.not_mem_nil, or_false] at hpr
    rcases hpr with rfl | rfl
    · cases hmode
    · simp only
      rw [abs_lt]
      constructor <;> norm_num


set_option maxRecDepth 100000 in
/-- C1 witness: the theorem applied to `c1Base` with window 30, all
hypotheses discharged by computation. -/
theorem deltaBase_emits_witness :
    (30 ∈ [7, 30, 90]) ∧
      ((sortByDate c1Base).map SeriesPoint.ts).Nodup ∧
      SeriesPoint.mk 20000 5300000 ∈ sortByDate c1Base ∧
      SeriesPoint.mk (subtractBusinessDays allHolidays 20000 30) 5500000
        ∈ sortByDate c1Base ∧
      (SeriesPoint.mk (subtractBusinessDays allHolidays 20000 30) 5500000).ts
        = subtractBusinessDays allHolidays
            (SeriesPoint.mk 20000 5300000).ts 30 ∧
      ((5500000 : Rat) ≠ 0) ∧
      ((⟨30, DeltaMode.abs, (SeriesPoint.mk 20000 5300000).ts,
          normalizeToMillions (SeriesPoint.mk 20000 5300000).value
            - normalizeToMillions
                (SeriesPoint.mk (subtractBusinessDays allHolidays 20000 30) 5500000).value,
          normalizeToMillions (SeriesPoint.mk 20000 5300000).value,
          normalizeToMillions
            (SeriesPoint.mk (subtractBusinessDays allHolidays 20000 30) 5500000).value,
          (SeriesPoint.mk (subtractBusinessDays allHolidays 20000 30) 5500000).ts⟩
            : DeltaResult) ∈ deltaBaseResults c1Base ∧
        (⟨30, DeltaMode.pct, (SeriesPoint.mk 20000 5300000).ts,
          ((SeriesPoint.mk 20000 5300000).value
              / (SeriesPoint.mk (subtractBusinessDays allHolidays 20000 30) 5500000).value
            - 1) * 100,
          normalizeToMillions (SeriesPoint.mk 20000 5300000).value,
          normalizeToMillions
            (SeriesPoint.mk (subtractBusinessDays allHolidays 20000 30) 5500000).value,
          (SeriesPoint.mk (subtractBusinessDays allHolidays 20000 30) 5500000).ts⟩
            : DeltaResult) ∈ deltaBaseResults c1Base ∧
        ∀ (t rd : Int), ∀ pr ∈ computeAbsoluteAndPercentageDeltas
            (SeriesPoint.mk t 5300000) (SeriesPoint.mk rd 5500000, rd) 30,
          pr.mode = DeltaMode.pct → |pr.value + 3636 / 1000| < 1 / 1000) :=
  ⟨by decide, by decide, by decide, by decide, by decide, by decide,
    deltaBase_emits c1Base 30 (by decide)
      (SeriesPoint.mk 20000 5300000)
      (SeriesPoint.mk (subtractBusinessDays allHolidays 20000 30) 5500000)
      (by decide) (by decide) (by decide) (by decide) (by decide)⟩

/-- C5: if the value found at the reference date (current date minus W
business days) is exactly 0, the calculator emits neither delta for that
(window, date) pair; and no emitted result — in particular no
percentage-delta result — carries `metadata.reference = 0`. -/
theorem deltaBase_skip_zero_reference (base : List SeriesPoint) (w : Nat)
    (t : Int)
    (h : getValueAtDate (sortByDate base)
        (subtractBusinessDays allHolidays t w) = some 0) :
    (∀ r ∈ deltaBaseResults base, ¬(r.window = w ∧ r.ts = t)) ∧
      (∀ r ∈ deltaBaseResults base,
        r.mode = DeltaMode.pct → r.reference ≠ 0) := by
  constructor
  · rintro r hr ⟨hrw, hrt⟩
    obtain ⟨w', _, p, _, q, href, hqv, hrc⟩ := deltaBase_mem_inv base r hr
    obtain ⟨hw', hts, _⟩ := computeDeltas_fields p _ w' r hrc
    obtain ⟨_, _, _, hval⟩ := findReferencePoint_inv _ p w' _ href
    have hww : w' = w := by rw [← hrw, hw']
    have hpt : p.ts = t := by rw [← hrt, hts]
    rw [hww, hpt, h] at hval
    injection hval with hval
    exact hqv hval.symm
  · intro r hr _
    obtain ⟨w', _, p, _, q, href, hqv, hrc⟩ := deltaBase_mem_inv base r hr
    obtain ⟨_, _, hrref⟩ := computeDeltas_fields p _ w' r hrc
    rw [hrref]
    exact normalizeToMillions_ne_zero hqv


set_option maxRecDepth 100000 in
/-- C5 witness: the theorem applied to `c5Base` at window 30 and date 20000,
the zero-reference hypothesis discharged by computation. -/
theorem deltaBase_skip_zero_reference_witness :
    getValueAtDate (sortByDate c5Base)
        (subtractBusinessDays allHolidays 20000 30) = some 0 ∧
      ((∀ r ∈ deltaBaseResults c5Base, ¬(r.window = 30 ∧ r.ts = 20000)) ∧
        (∀ r ∈ deltaBaseResults c5Base,
          r.mode = DeltaMode.pct → r.reference ≠ 0)) :=
  ⟨by decide, deltaBase_skip_zero_reference c5Base 30 20000 (by decide)⟩

/-! ## C6: FX volatility -/

theorem filterMap_eq_map_of_some {α β : Type} (f : α → Option β) (g : α → β)
    (l : List α) (h : ∀ a ∈ l, f a = some (g a)) : l.filterMap f = l.map g := by
  induction l with
  | nil => rfl
  | cons a t ih =>
    rw [List.filterMap_cons, h a (List.mem_cons_self a t), List.map_cons,
      ih (fun x hx => h x (List.mem_cons_of_mem a hx))]

theorem headD_mem {α : Type} (l : List α) (d : α) (h : l ≠ []) : l.headD d ∈ l := by
  cases l with
  | nil => exact absurd rfl h
  | cons a t => exact List.mem_cons_self a t

theorem foldl_add_eq_sum (l : List Rat) :
    ∀ init : Rat, l.foldl (fun sum v => sum + v) init = init + l.sum := by
  induction l with
  | nil => intro init; simp
  | cons a t ih =>
    intro init
    rw [List.foldl_cons, ih (init + a), List.sum_cons]
    ring

theorem meanQ_eq_sum_div (l : List Rat) (h : l.length ≠ 0) :
    meanQ l = l.sum / (l.length : Rat) := by
  rw [meanQ, if_neg h, foldl_add_eq_sum, zero_add]

/-- `standardDeviation` squared is the population variance of the spec for any
window of at least two values. -/
theorem standardDeviationSq_eq_popVariance (xs : List Rat) (h2 : 2 ≤ xs.length) :
    standardDeviationSq xs = popVarianceSpec xs := by
  have hlen : ¬ xs.length ≤ 1 := by omega
  have hne : xs.length ≠ 0 := by omega
  rw [standardDeviationSq, if_neg hlen, popVarianceSpec]
  have hmap : xs.map (fun v => (v - meanQ xs) ^ 2)
      = xs.map (fun x => (x - xs.sum / (xs.length : Rat)) ^ 2) := by
    apply List.map_congr_left
    intro x _
    rw [meanQ_eq_sum_div xs hne]
  rw [hmap, meanQ_eq_sum_div, List.length_map]
  rw [List.length_map]
  exact hne

theorem mem_drop_range {n k i : Nat} (h : i ∈ (List.range n).drop k) :
    k ≤ i ∧ i < n := by
  obtain ⟨j, hj, hji⟩ := List.mem_iff_getElem.mp h
  rw [List.getElem_drop, List.getElem_range] at hji
  rw [List.length_drop, List.length_range] at hj
  omega

/-- With strictly positive prices, every consecutive pair passes the
`ptMinus1 !== 0` guard, so the log-return list is the full pairwise map and
has one entry per consecutive pair. -/
theorem calculateLogReturns_of_pos (lg : Rat → Rat) (usd : List SeriesPoint)
    (hpos : ∀ p ∈ usd, 0 < p.value) (h2 : 2 ≤ usd.length) :
    calculateLogReturns lg usd
      = ((sortByDate usd).zip (sortByDate usd).tail).map
          (fun ab => SeriesPoint.mk ab.2.ts (lg (ab.2.value / ab.1.value))) := by
  have hlen2 : ¬ usd.length < 2 := by omega
  rw [calculateLogReturns, if_neg hlen2]
  apply filterMap_eq_map_of_some
  intro ab hab
  obtain ⟨ha, _⟩ := List.of_mem_zip hab
  have ha' : ab.1 ∈ usd := (List.perm_insertionSort _ usd).mem_iff.mp ha
  have : ab.1.value ≠ 0 := by
    have := hpos ab.1 ha'
    exact ne_of_gt this
  rw [if_pos this]

theorem calculateLogReturns_length_of_pos (lg : Rat → Rat)
    (usd : List SeriesPoint) (hpos : ∀ p ∈ usd, 0 < p.value)
    (h2 : 2 ≤ usd.length) :
    (calculateLogReturns lg usd).length = usd.length - 1 := by
  rw [calculateLogReturns_of_pos lg usd hpos h2, List.length_map,
    List.length_zip, List.length_tail]
  have : (sortByDate usd).length = usd.length :=
    (List.perm_insertionSort _ usd).length_eq
  omega

/-- C6: every emitted `fx.vol_Wd` point, for W ∈ {7, 30}, on a strictly
positive FX series, carries (the square of) the population standard deviation
— squared deviations from the mean divided by N, not N − 1 — of the trailing
W log returns, and it is timestamped at the sorted price of index i + 1, the
later price of its window. -/
theorem fxVolatility_emits_popStdev (lg : Rat → Rat)
    (usdOfficial : List SeriesPoint)
    (hpos : ∀ p ∈ usdOfficial, 0 < p.value)
    (r : VolResult) (hr : r ∈ fxVolatilityResults lg usdOfficial) :
    ∃ w, w ∈ [7, 30] ∧ r.window = w ∧ ∃ i : Nat, w - 1 ≤ i ∧
      i < (calculateLogReturns lg usdOfficial).length ∧
      i + 1 < (sortByDate usdOfficial).length ∧
      r.ts = ((sortByDate usdOfficial).getD (i + 1) (SeriesPoint.mk 0 0)).ts ∧
      ((((calculateLogReturns lg usdOfficial).drop (i + 1 - w)).take w).length = w) ∧
      r.valueSq = popVarianceSpec
        ((((calculateLogReturns lg usdOfficial).drop (i + 1 - w)).take w).map
          SeriesPoint.value) := by
  rw [fxVolatilityResults] at hr
  by_cases h30 : usdOfficial.length < 30
  · rw [if_pos h30] at hr; cases hr
  · rw [if_neg h30] at hr
    rw [calculateVolatilityMetrics] at hr
    by_cases hl30 : (calculateLogReturns lg usdOfficial).length < 30
    · rw [if_pos hl30] at hr; cases hr
    · rw [if_neg hl30] at hr
      obtain ⟨w, hw, hrw⟩ := List.mem_flatMap.mp hr
      rw [calculateVolatilityForWindow] at hrw
      obtain ⟨i, hi, hri⟩ := List.mem_map.mp hrw
      obtain ⟨hik, hin⟩ := mem_drop_range hi
      have h2 : 2 ≤ usdOfficial.length := by omega
      have hlrs : (calculateLogReturns lg usdOfficial).length
          = usdOfficial.length - 1 :=
        calculateLogReturns_length_of_pos lg usdOfficial hpos h2
      have hslen : (sortByDate usdOfficial).length = usdOfficial.length :=
        (List.perm_insertionSort _ usdOfficial).length_eq
      have hw2 : 2 ≤ w := by
        rcases List.mem_cons.mp hw with rfl | hw'
        · omega
        · rcases List.mem_cons.mp hw' with rfl | hw''
          · omega
          · cases hw''
      have hslice : (((calculateLogReturns lg usdOfficial).drop (i + 1 - w)).take w).length
          = w := by
        rw [List.length_take, List.length_drop]
        omega
      refine ⟨w, hw, ?_, i, by omega, hin, by omega, ?_, hslice, ?_⟩
      · rw [← hri]
      · rw [← hri]
      · rw [← hri]
        simp only
        rw [show extractWindowReturns (calculateLogReturns lg usdOfficial) i w
            = (((calculateLogReturns lg usdOfficial).drop (i + 1 - w)).take w).map
                SeriesPoint.value from rfl]
        apply standardDeviationSq_eq_popVariance
        rw [List.length_map, hslice]
        omega


set_option maxRecDepth 100000 in
/-- C6 witness: the theorem applied to `c6Usd` and the first emitted
volatility point; positivity and non-emptiness discharged by computation. -/
theorem fxVolatility_emits_popStdev_witness :
    (∀ p ∈ c6Usd, 0 < p.value) ∧
      (∃ w, w ∈ [7, 30] ∧
        ((fxVolatilityResults (fun x => x) c6Usd).headD ⟨0, 0, 0⟩).window = w ∧
        ∃ i : Nat, w - 1 ≤ i ∧
          i < (calculateLogReturns (fun x => x) c6Usd).length ∧
          i + 1 < (sortByDate c6Usd).length ∧
          ((fxVolatilityResults (fun x => x) c6Usd).headD ⟨0, 0, 0⟩).ts
            = ((sortByDate c6Usd).getD (i + 1) (SeriesPoint.mk 0 0)).ts ∧
          ((((calculateLogReturns (fun x => x) c6Usd).drop (i + 1 - w)).take w).length = w) ∧
          ((fxVolatilityResults (fun x => x) c6Usd).headD ⟨0, 0, 0⟩).valueSq
            = popVarianceSpec
                ((((calculateLogReturns (fun x => x) c6Usd).drop (i + 1 - w)).take w).map
                  SeriesPoint.value)) :=
  ⟨by decide,
    fxVolatility_emits_popStdev (fun x => x) c6Usd (by decide) _
      (headD_mem _ _ (by decide))⟩

/-! ## C4: coverage -/

theorem bdCountAux_append (hol : List Int) (m n : Nat) :
    ∀ s : Int, bdCountAux hol (m + n) s
      = bdCountAux hol m s + bdCountAux hol n (s + m) := by
  induction m with
  | zero => intro s; simp [bdCountAux]
  | succ k ih =>
    intro s
    have h1 : k + 1 + n = (k + n) + 1 := by omega
    rw [h1]
    simp only [bdCountAux]
    rw [ih (s + 1)]
    have harg : s + 1 + (k : Int) = s + ((k + 1 : Nat) : Int) := by push_cast; ring
    rw [harg]
    omega

theorem bdCountAux_zero_of_none (hol : List Int) :
    ∀ (n : Nat) (s : Int),
      (∀ x : Int, s ≤ x → x < s + n → isBusinessDay hol x = false) →
      bdCountAux hol n s = 0 := by
  intro n
  induction n with
  | zero => intro s _; rfl
  | succ k ih =>
    intro s h
    simp only [bdCountAux]
    rw [h s (le_refl s) (by omega)]
    rw [ih (s + 1) (fun x hx1 hx2 => h x (by omega) (by push_cast at hx2 ⊢; omega))]
    simp

/-- Counting business days from `subtractBusinessDays hol d n` up to `d`
inclusive gives exactly `n` plus one more if `d` itself is a business day:
the trailing "n business days" window actually holds n or n + 1 business
days. -/
theorem countBusinessDaysBetween_subtract (hol : List Int) (d : Int) :
    ∀ n : Nat, countBusinessDaysBetween hol (subtractBusinessDays hol d n) d
      = n + (if isBusinessDay hol d then 1 else 0) := by
  intro n
  induction n with
  | zero =>
    simp only [subtractBusinessDays, countBusinessDaysBetween]
    rw [if_neg (by omega : ¬ d > d)]
    have h1 : (d + 1 - d).toNat = 1 := by omega
    rw [h1]
    simp [bdCountAux]
  | succ k ih =>
    obtain ⟨hbs, hle, hmax⟩ :=
      previousBusinessDay_spec hol (subtractBusinessDays hol d k)
    have hsd : subtractBusinessDays hol d k ≤ d := subtractBusinessDays_le hol d k
    have hsub : subtractBusinessDays hol d (k + 1)
        = previousBusinessDay hol (subtractBusinessDays hol d k) := rfl
    rw [hsub, countBusinessDaysBetween,
      if_neg (by omega :
        ¬ previousBusinessDay hol (subtractBusinessDays hol d k) > d)]
    have hsplit : (d + 1 - previousBusinessDay hol (subtractBusinessDays hol d k)).toNat
        = (subtractBusinessDays hol d k
            - previousBusinessDay hol (subtractBusinessDays hol d k)).toNat
          + (d + 1 - subtractBusinessDays hol d k).toNat := by omega
    rw [hsplit, bdCountAux_append]
    have hfirst : bdCountAux hol
        (subtractBusinessDays hol d k
          - previousBusinessDay hol (subtractBusinessDays hol d k)).toNat
        (previousBusinessDay hol (subtractBusinessDays hol d k)) = 1 := by
      have h1 : (subtractBusinessDays hol d k
          - previousBusinessDay hol (subtractBusinessDays hol d k)).toNat
          = 1 + (subtractBusinessDays hol d k
              - previousBusinessDay hol (subtractBusinessDays hol d k) - 1).toNat := by
        omega
      rw [h1, bdCountAux_append]
      have hB : bdCountAux hol 1
          (previousBusinessDay hol (subtractBusinessDays hol d k)) = 1 := by
        simp [bdCountAux, hbs]
      rw [hB]
      have hZ : bdCountAux hol
          (subtractBusinessDays hol d k
            - previousBusinessDay hol (subtractBusinessDays hol d k) - 1).toNat
          (previousBusinessDay hol (subtractBusinessDays hol d k) + (1 : Nat)) = 0 := by
        apply bdCountAux_zero_of_none
        intro x hx1 hx2
        push_cast at hx1 hx2
        exact hmax x (by omega) (by omega)
      rw [hZ]
    rw [hfirst]
    have harg : previousBusinessDay hol (subtractBusinessDays hol d k)
        + ((subtractBusinessDays hol d k
            - previousBusinessDay hol (subtractBusinessDays hol d k)).toNat : Int)
        = subtractBusinessDays hol d k := by omega
    rw [harg]
    have hrest : bdCountAux hol (d + 1 - subtractBusinessDays hol d k).toNat
        (subtractBusinessDays hol d k)
        = countBusinessDaysBetween hol (subtractBusinessDays hol d k) d := by
      rw [countBusinessDaysBetween, if_neg (by omega : ¬ subtractBusinessDays hol d k > d)]
    rw [hrest, ih]
    omega

/-- When every business day in the scanned range carries a data point, the
with-data count equals the plain business-day count. -/
theorem countWithData_eq_bdCount (hol : List Int) (points : List SeriesPoint) :
    ∀ (n : Nat) (s : Int),
      (∀ x : Int, s ≤ x → x < s + n → isBusinessDay hol x = true →
        points.any (fun p => p.ts == x) = true) →
      countBusinessDaysWithDataAux hol points n s = bdCountAux hol n s := by
  intro n
  induction n with
  | zero => intro s _; rfl
  | succ k ih =>
    intro s h
    simp only [countBusinessDaysWithDataAux, bdCountAux]
    rw [ih (s + 1) (fun x h1 h2 hb => h x (by omega) (by push_cast at h2 ⊢; omega) hb)]
    congr 1
    by_cases hb : isBusinessDay hol s = true
    · rw [hb, h s (le_refl s) (by omega) hb]
      simp
    · have hb' : isBusinessDay hol s = false := by simpa using hb
      rw [hb']
      simp

/-- C4 (amended): the coverage metric equals (business days in the trailing
window `[today − 90 business days, today]` carrying a data point) / 90; when
every business day of the window carries a point, the window holds 90
business days plus today itself if today is a business day, so the metric is
`(90 + [today is a business day]) / 90` — equal to 1 exactly when today is
not a business day, and 91/90 when it is. With data on 81 of the window's
business days the count is 81 and the metric is 81/90 = 0.9. -/
theorem coverage_full_window (hol : List Int) (points : List SeriesPoint)
    (today : Int)
    (hfull : ∀ d ∈ coverageWindowDays hol today,
      isBusinessDay hol d = true → points.any (fun p => p.ts == d) = true) :
    calculateCoverageValue hol points today
        = ((90 + (if isBusinessDay hol today then 1 else 0) : Nat) : Rat) / 90 ∧
      calculateCoverageValue hol points today
        = ((countBusinessDaysInPeriod hol
            (points.filter (fun p =>
              subtractBusinessDays hol today 90 ≤ p.ts && p.ts ≤ today))
            (subtractBusinessDays hol today 90) today : Nat) : Rat) / 90 := by
  have hstart_le : subtractBusinessDays hol today 90 ≤ today :=
    subtractBusinessDays_le hol today 90
  have hfull' : ∀ x : Int, subtractBusinessDays hol today 90 ≤ x →
      x < subtractBusinessDays hol today 90
          + ((today + 1 - subtractBusinessDays hol today 90).toNat : Int) →
      isBusinessDay hol x = true →
      (points.filter (fun p =>
        subtractBusinessDays hol today 90 ≤ p.ts && p.ts ≤ today)).any
          (fun p => p.ts == x) = true := by
    intro x h1 h2 hb
    have hx_mem : x ∈ coverageWindowDays hol today := by
      rw [coverageWindowDays]
      apply List.mem_map.mpr
      refine ⟨(x - subtractBusinessDays hol today 90).toNat, ?_, by omega⟩
      rw [List.mem_range]
      omega
    have hany := hfull x hx_mem hb
    rw [List.any_eq_true] at hany ⊢
    obtain ⟨p, hp, hpx⟩ := hany
    refine ⟨p, ?_, hpx⟩
    rw [List.mem_filter]
    refine ⟨hp, ?_⟩
    have hpts : p.ts = x := by simpa using hpx
    rw [hpts]
    simp only [Bool.and_eq_true, decide_eq_true_eq]
    omega
  have hcount : countBusinessDaysInPeriod hol
      (points.filter (fun p =>
        subtractBusinessDays hol today 90 ≤ p.ts && p.ts ≤ today))
      (subtractBusinessDays hol today 90) today
      = 90 + (if isBusinessDay hol today then 1 else 0) := by
    rw [countBusinessDaysInPeriod]
    rw [countWithData_eq_bdCount hol _ _ _ hfull']
    have hbetween : bdCountAux hol
        (today + 1 - subtractBusinessDays hol today 90).toNat
        (subtractBusinessDays hol today 90)
        = countBusinessDaysBetween hol (subtractBusinessDays hol today 90) today := by
      rw [countBusinessDaysBetween, if_neg (by omega : ¬ subtractBusinessDays hol today 90 > today)]
    rw [hbetween, countBusinessDaysBetween_subtract]
  constructor
  · show ((countBusinessDaysInPeriod hol
        (points.filter (fun p =>
          subtractBusinessDays hol today 90 ≤ p.ts && p.ts ≤ today))
        (subtractBusinessDays hol today 90) today : Nat) : Rat) / 90 = _
    rw [hcount]
  · rfl


set_option maxRecDepth 1000000 in
/-- C4 counterexample: with a point on every business day of the window, the
emitted coverage at the business day 20000 is 91/90, not 1: the window
`[today − 90bd, today]` holds 91 business days when today itself is a
business day. -/
theorem coverage_full_not_one :
    (∀ d ∈ coverageWindowDays allHolidays 20000,
      isBusinessDay allHolidays d = true →
        c4Points.any (fun p => p.ts == d) = true) ∧
      calculateCoverageValue allHolidays c4Points 20000 ≠ 1 := by
  constructor
  · decide
  · have hc : countBusinessDaysInPeriod allHolidays
        (c4Points.filter (fun p =>
          subtractBusinessDays allHolidays 20000 90 ≤ p.ts && p.ts ≤ 20000))
        (subtractBusinessDays allHolidays 20000 90) 20000 = 91 := by decide
    have hdef : calculateCoverageValue allHolidays c4Points 20000
        = ((countBusinessDaysInPeriod allHolidays
            (c4Points.filter (fun p =>
              subtractBusinessDays allHolidays 20000 90 ≤ p.ts && p.ts ≤ 20000))
            (subtractBusinessDays allHolidays 20000 90) 20000 : Nat) : Rat) / 90 := rfl
    rw [hdef, hc]
    norm_num

set_option maxRecDepth 1000000 in
/-- C4 witness: the amended theorem applied to the full-coverage input at day
20000; the full-coverage hypothesis is discharged by computation. -/
theorem coverage_full_window_witness :
    (∀ d ∈ coverageWindowDays allHolidays 20000,
      isBusinessDay allHolidays d = true →
        c4Points.any (fun p => p.ts == d) = true) ∧
      (calculateCoverageValue allHolidays c4Points 20000
          = ((90 + (if isBusinessDay allHolidays 20000 then 1 else 0) : Nat) : Rat) / 90 ∧
        calculateCoverageValue allHolidays c4Points 20000
          = ((countBusinessDaysInPeriod allHolidays
              (c4Points.filter (fun p =>
                subtractBusinessDays allHolidays 20000 90 ≤ p.ts && p.ts ≤ 20000))
              (subtractBusinessDays allHolidays 20000 90) 20000 : Nat) : Rat) / 90) :=
  ⟨by decide, coverage_full_window allHolidays c4Points 20000 (by decide)⟩

/-! ## C3: alignment lemmas -/


theorem any_ts_iff_mem_datesOf (s : List SeriesPoint) (d : Int) :
    (s.any (fun p => p.ts == d) = true) ↔ d ∈ datesOf s := by
  rw [List.any_eq_true, datesOf]
  constructor
  · rintro ⟨p, hp, hbeq⟩
    have : p.ts = d := by simpa using hbeq
    rw [← this]
    exact List.mem_map_of_mem _ hp
  · intro h
    obtain ⟨p, hp, hpd⟩ := List.mem_map.mp h
    exact ⟨p, hp, by simpa using hpd⟩

theorem mapHas_iff_mem_keys (m : List (Int × Rat)) (k : Int) :
    (mapHas m k = true) ↔ k ∈ mapKeys m := by
  rw [mapHas, List.any_eq_true, mapKeys]
  constructor
  · rintro ⟨kv, hkv, hbeq⟩
    have : kv.1 = k := by simpa using hbeq
    rw [← this]
    exact List.mem_map_of_mem _ hkv
  · intro h
    obtain ⟨kv, hkv, hk⟩ := List.mem_map.mp h
    exact ⟨kv, hkv, by simpa using hk⟩

theorem mem_keys_mapInsert (m : List (Int × Rat)) (a k : Int) (v : Rat) :
    k ∈ mapKeys (mapInsert m a v) ↔ k ∈ mapKeys m ∨ k = a := by
  rw [mapInsert]
  by_cases h : m.any (fun kv => kv.1 == a) = true
  · rw [if_pos h]
    have hkeys : mapKeys (m.map (fun kv => if kv.1 == a then (a, v) else kv))
        = mapKeys m := by
      rw [mapKeys, mapKeys, List.map_map]
      apply List.map_congr_left
      intro kv _
      by_cases hkv : kv.1 = a
      · simp [hkv]
      · simp [hkv]
    rw [hkeys]
    have hmem : a ∈ mapKeys m := by
      rw [← mapHas_iff_mem_keys]
      exact h
    constructor
    · exact Or.inl
    · rintro (hk | rfl)
      · exact hk
      · exact hmem
  · rw [if_neg h, mapKeys, List.map_append]
    simp [mapKeys]

theorem nodup_keys_mapInsert (m : List (Int × Rat)) (a : Int) (v : Rat)
    (hnd : (mapKeys m).Nodup) : (mapKeys (mapInsert m a v)).Nodup := by
  rw [mapInsert]
  by_cases h : m.any (fun kv => kv.1 == a) = true
  · rw [if_pos h]
    have hkeys : mapKeys (m.map (fun kv => if kv.1 == a then (a, v) else kv))
        = mapKeys m := by
      rw [mapKeys, mapKeys, List.map_map]
      apply List.map_congr_left
      intro kv _
      by_cases hkv : kv.1 = a
      · simp [hkv]
      · simp [hkv]
    rw [hkeys]
    exact hnd
  · rw [if_neg h, mapKeys, List.map_append]
    have hnotin : a ∉ mapKeys m := by
      rw [← mapHas_iff_mem_keys]
      simpa [mapHas] using h
    simp only [List.map_cons, List.map_nil]
    rw [List.nodup_append]
    exact ⟨hnd, List.nodup_singleton a, by simpa [mapKeys] using hnotin⟩

theorem mem_keys_foldl_mapInsert (s : List SeriesPoint) :
    ∀ (m : List (Int × Rat)) (k : Int),
      k ∈ mapKeys (s.foldl (fun acc p => mapInsert acc p.ts p.value) m)
        ↔ k ∈ mapKeys m ∨ k ∈ datesOf s := by
  induction s with
  | nil => intro m k; simp [datesOf]
  | cons p t ih =>
    intro m k
    rw [List.foldl_cons, ih, mem_keys_mapInsert]
    simp only [datesOf, List.map_cons, List.mem_cons]
    constructor
    · rintro ((hk | rfl) | ht)
      · exact Or.inl hk
      · exact Or.inr (Or.inl rfl)
      · exact Or.inr (Or.inr (by simpa [datesOf] using ht))
    · rintro (hk | (rfl | ht))
      · exact Or.inl (Or.inl hk)
      · exact Or.inl (Or.inr rfl)
      · exact Or.inr (by simpa [datesOf] using ht)

theorem nodup_keys_foldl_mapInsert (s : List SeriesPoint) :
    ∀ m : List (Int × Rat), (mapKeys m).Nodup →
      (mapKeys (s.foldl (fun acc p => mapInsert acc p.ts p.value) m)).Nodup := by
  induction s with
  | nil => intro m h; exact h
  | cons p t ih =>
    intro m h
    rw [List.foldl_cons]
    exact ih _ (nodup_keys_mapInsert m p.ts p.value h)

theorem mem_keys_toMap (s : List SeriesPoint) (k : Int) :
    k ∈ mapKeys (toMap s) ↔ k ∈ datesOf s := by
  rw [toMap, mem_keys_foldl_mapInsert]
  simp [mapKeys]

theorem nodup_keys_toMap (s : List SeriesPoint) : (mapKeys (toMap s)).Nodup := by
  rw [toMap]
  exact nodup_keys_foldl_mapInsert s [] (by simp [mapKeys])

theorem sorted_lt_of_sorted_le_nodup {l : List SeriesPoint}
    (hs : List.Pairwise (fun a b : SeriesPoint => a.ts ≤ b.ts) l)
    (hnd : (l.map SeriesPoint.ts).Nodup) :
    List.Pairwise (fun a b : SeriesPoint => a.ts < b.ts) l := by
  have hne : List.Pairwise (fun a b : SeriesPoint => a.ts ≠ b.ts) l :=
    List.pairwise_map.mp hnd
  exact (hs.and hne).imp (fun h => lt_of_le_of_ne h.1 h.2)

/-- Sorting a list of points built from distinct dates commutes with building
the points: sorting by date is sorting the dates. -/
theorem sortByDate_map_mk (ds : List Int) (f : Int → Rat) (hnd : ds.Nodup) :
    sortByDate (ds.map (fun d => SeriesPoint.mk d (f d)))
      = (ds.insertionSort (fun a b : Int => a ≤ b)).map
          (fun d => SeriesPoint.mk d (f d)) := by
  apply List.eq_of_perm_of_sorted (r := fun a b : SeriesPoint => a.ts < b.ts)
  · exact (List.perm_insertionSort _ _).trans
      (((List.perm_insertionSort (fun a b : Int => a ≤ b) ds).map
        (fun d => SeriesPoint.mk d (f d))).symm)
  · apply sorted_lt_of_sorted_le_nodup
    · exact List.sorted_insertionSort _ _
    · have h1 : (sortByDate (ds.map (fun d => SeriesPoint.mk d (f d)))).Perm
          (ds.map (fun d => SeriesPoint.mk d (f d))) := List.perm_insertionSort _ _
      have h2 := h1.map SeriesPoint.ts
      rw [List.map_map] at h2
      have h4 : (ds.map (SeriesPoint.ts ∘ fun d => SeriesPoint.mk d (f d))).Nodup := by
        rw [show (SeriesPoint.ts ∘ fun d => SeriesPoint.mk d (f d)) = fun d : Int => d from rfl]
        rw [List.map_id']
        exact hnd
      exact h2.nodup_iff.mpr h4
  · have hsort : List.Pairwise (fun a b : Int => a < b)
        (ds.insertionSort (fun a b : Int => a ≤ b)) := by
      apply List.Sorted.lt_of_le
      · exact List.sorted_insertionSort _ _
      · exact ((List.perm_insertionSort _ ds).nodup_iff).mpr hnd
    show List.Pairwise _ _
    rw [List.pairwise_map]
    exact hsort.imp (fun h => h)


theorem commonDatesOf_nodup (a b : List SeriesPoint) : (commonDatesOf a b).Nodup :=
  (nodup_keys_toMap a).filter _

theorem mem_commonDatesOf (a b : List SeriesPoint) (d : Int) :
    d ∈ commonDatesOf a b ↔ d ∈ datesOf a ∧ d ∈ datesOf b := by
  rw [commonDatesOf, List.mem_filter, mem_keys_toMap, mapHas_iff_mem_keys,
    mem_keys_toMap]

theorem alignSeries_snd_eq (a b : List SeriesPoint) :
    (alignSeries a b).2
      = ((commonDatesOf a b).insertionSort (fun x y : Int => x ≤ y)).map
          (fun d => SeriesPoint.mk d ((mapGet (toMap b) d).getD 0)) := by
  show sortByDate ((commonDatesOf a b).map
      (fun d => SeriesPoint.mk d ((mapGet (toMap b) d).getD 0))) = _
  exact sortByDate_map_mk _ _ (commonDatesOf_nodup a b)

theorem alignSeries_fst_eq (a b : List SeriesPoint) :
    (alignSeries a b).1
      = ((commonDatesOf a b).insertionSort (fun x y : Int => x ≤ y)).map
          (fun d => SeriesPoint.mk d ((mapGet (toMap a) d).getD 0)) := by
  show sortByDate ((commonDatesOf a b).map
      (fun d => SeriesPoint.mk d ((mapGet (toMap a) d).getD 0))) = _
  exact sortByDate_map_mk _ _ (commonDatesOf_nodup a b)

theorem datesOf_alignSeries_fst (a b : List SeriesPoint) :
    datesOf (alignSeries a b).1
      = (commonDatesOf a b).insertionSort (fun x y : Int => x ≤ y) := by
  rw [alignSeries_fst_eq, datesOf, List.map_map]
  rw [show (SeriesPoint.ts ∘ fun d => SeriesPoint.mk d ((mapGet (toMap a) d).getD 0))
      = fun d : Int => d from rfl, List.map_id']

theorem mem_datesOf_alignSeries_fst (a b : List SeriesPoint) (d : Int) :
    d ∈ datesOf (alignSeries a b).1 ↔ d ∈ datesOf a ∧ d ∈ datesOf b := by
  rw [datesOf_alignSeries_fst, (List.perm_insertionSort _ _).mem_iff]
  exact mem_commonDatesOf a b d

theorem mem_datesOf_foldl_align (rest : List (List SeriesPoint)) :
    ∀ (s0 : List SeriesPoint) (d : Int),
      d ∈ datesOf (rest.foldl (fun acc s => (alignSeries acc s).1) s0)
        ↔ d ∈ datesOf s0 ∧ ∀ s ∈ rest, d ∈ datesOf s := by
  induction rest with
  | nil => intro s0 d; simp
  | cons s t ih =>
    intro s0 d
    rw [List.foldl_cons, ih, mem_datesOf_alignSeries_fst]
    constructor
    · rintro ⟨⟨h0, hs⟩, ht⟩
      refine ⟨h0, fun x hx => ?_⟩
      rcases List.mem_cons.mp hx with rfl | hx'
      · exact hs
      · exact ht x hx'
    · rintro ⟨h0, hall⟩
      exact ⟨⟨h0, hall s (List.mem_cons_self s t)⟩,
        fun x hx => hall x (List.mem_cons_of_mem s hx)⟩

theorem insertionSortInt_eq_of_mem_iff {l1 l2 : List Int} (h1 : l1.Nodup)
    (h2 : l2.Nodup) (hmem : ∀ d, d ∈ l1 ↔ d ∈ l2) :
    l1.insertionSort (fun a b : Int => a ≤ b)
      = l2.insertionSort (fun a b : Int => a ≤ b) := by
  apply List.eq_of_perm_of_sorted (r := fun a b : Int => a ≤ b)
  · exact (List.perm_insertionSort _ _).trans
      (((List.perm_ext_iff_of_nodup h1 h2).mpr hmem).trans
        (List.perm_insertionSort _ l2).symm)
  · exact List.sorted_insertionSort _ _
  · exact List.sorted_insertionSort _ _

theorem mem_canonical_filter (l : List (List SeriesPoint)) (hne : l ≠ [])
    (d : Int) :
    d ∈ (mapKeys (toMap (l.headD []))).filter (fun x => inAllDates l x)
      ↔ inAllDates l d = true := by
  rw [List.mem_filter, mem_keys_toMap]
  constructor
  · rintro ⟨_, h⟩
    exact h
  · intro h
    refine ⟨?_, h⟩
    cases l with
    | nil => exact absurd rfl hne
    | cons s0 t =>
      rw [inAllDates, List.all_eq_true] at h
      have hh := h s0 (List.mem_cons_self s0 t)
      rw [any_ts_iff_mem_datesOf] at hh
      simpa using hh

theorem canonicalDates_sorted_lt (l : List (List SeriesPoint)) :
    List.Pairwise (fun a b : Int => a < b) (canonicalDates l) := by
  rw [canonicalDates]
  apply List.Sorted.lt_of_le
  · exact List.sorted_insertionSort _ _
  · exact ((List.perm_insertionSort _ _).nodup_iff).mpr
      ((nodup_keys_toMap _).filter _)

theorem mem_canonicalDates (l : List (List SeriesPoint)) (hne : l ≠ [])
    (d : Int) : d ∈ canonicalDates l ↔ inAllDates l d = true := by
  rw [canonicalDates, (List.perm_insertionSort _ _).mem_iff]
  exact mem_canonical_filter l hne d

theorem inAllDates_perm {l l' : List (List SeriesPoint)} (hp : l.Perm l')
    (d : Int) : (inAllDates l d = true) ↔ (inAllDates l' d = true) := by
  rw [inAllDates, inAllDates, List.all_eq_true, List.all_eq_true]
  constructor <;> intro h s hs
  · exact h s (hp.mem_iff.mpr hs)
  · exact h s (hp.mem_iff.mp hs)

theorem canonicalDates_perm_eq {l l' : List (List SeriesPoint)}
    (hp : l.Perm l') (hne : l ≠ []) : canonicalDates l = canonicalDates l' := by
  have hne' : l' ≠ [] := by
    intro h
    apply hne
    apply List.length_eq_zero.mp
    rw [hp.length_eq, h]
    rfl
  rw [canonicalDates, canonicalDates]
  apply insertionSortInt_eq_of_mem_iff
  · exact (nodup_keys_toMap _).filter _
  · exact (nodup_keys_toMap _).filter _
  · intro d
    rw [mem_canonical_filter l hne d, mem_canonical_filter l' hne' d]
    exact inAllDates_perm hp d

/-- C3 (amended): for input lists of at least two series, the multi-series
alignment of any permutation of the inputs returns, for each input series,
the canonical aligned sequence determined by the (permutation-invariant)
N-way date intersection of all inputs: one point per intersection date, in
strictly ascending date order, carrying that series' indexed value at the
date; a single-series input list, by contrast, is returned unchanged. -/
theorem alignMultipleSeries_canonical (l l' : List (List SeriesPoint))
    (hp : l.Perm l') (h2 : 2 ≤ l.length) :
    alignMultipleSeries l' = l'.map (canonicalAligned l) ∧
      List.Pairwise (fun a b : Int => a < b) (canonicalDates l) ∧
      (∀ d : Int, d ∈ canonicalDates l ↔ inAllDates l d = true) := by
  have hne : l ≠ [] := by
    intro h
    rw [h] at h2
    simp at h2
  have hlen' : l'.length = l.length := hp.length_eq.symm
  refine ⟨?_, canonicalDates_sorted_lt l, fun d => mem_canonicalDates l hne d⟩
  cases l' with
  | nil => rw [List.length_nil] at hlen'; omega
  | cons s0 t =>
    cases t with
    | nil => rw [List.length_cons, List.length_nil] at hlen'; omega
    | cons s1 rest =>
      show ((s0 :: s1 :: rest).map (fun s =>
          (alignSeries ((s1 :: rest).foldl (fun acc x => (alignSeries acc x).1) s0) s).2))
        = (s0 :: s1 :: rest).map (canonicalAligned l)
      apply List.map_congr_left
      intro s hs
      rw [alignSeries_snd_eq]
      have hdates : (commonDatesOf
            ((s1 :: rest).foldl (fun acc x => (alignSeries acc x).1) s0) s).insertionSort
            (fun x y : Int => x ≤ y)
          = canonicalDates l := by
        rw [canonicalDates_perm_eq hp hne, canonicalDates]
        apply insertionSortInt_eq_of_mem_iff
        · exact commonDatesOf_nodup _ _
        · exact (nodup_keys_toMap _).filter _
        · intro d
          rw [mem_commonDatesOf, mem_datesOf_foldl_align,
            mem_canonical_filter (s0 :: s1 :: rest) (by simp) d,
            inAllDates, List.all_eq_true]
          constructor
          · rintro ⟨⟨h0, hall⟩, _⟩
            intro x hx
            rw [any_ts_iff_mem_datesOf]
            rcases List.mem_cons.mp hx with rfl | hx'
            · exact h0
            · exact hall x hx'
          · intro hall
            refine ⟨⟨?_, ?_⟩, ?_⟩
            · have hh := hall s0 (List.mem_cons_self _ _)
              rwa [any_ts_iff_mem_datesOf] at hh
            · intro x hx
              have hh := hall x (List.mem_cons_of_mem s0 hx)
              rwa [any_ts_iff_mem_datesOf] at hh
            · have hh := hall s hs
              rwa [any_ts_iff_mem_datesOf] at hh
      rw [hdates, canonicalAligned]

/-- C3 counterexample: a single-series input list is returned exactly as
given, so an unsorted single series comes back with its dates out of
ascending order — the claimed sorted-intersection contract fails for
one-element input lists. -/
theorem alignMultipleSeries_single_unsorted :
    alignMultipleSeries [[SeriesPoint.mk 2 5, SeriesPoint.mk 1 3]]
        = [[SeriesPoint.mk 2 5, SeriesPoint.mk 1 3]] ∧
      ¬ List.Pairwise (fun a b : Int => a ≤ b)
          (datesOf ((alignMultipleSeries
            [[SeriesPoint.mk 2 5, SeriesPoint.mk 1 3]]).headD [])) := by
  constructor
  · rfl
  · decide

/-- C3 witness: the amended theorem applied to a two-series list and its
reversal. -/
theorem alignMultipleSeries_canonical_witness :
    (([[SeriesPoint.mk 1 2], [SeriesPoint.mk 1 3]] : List (List SeriesPoint)).Perm
        [[SeriesPoint.mk 1 3], [SeriesPoint.mk 1 2]]) ∧
      2 ≤ ([[SeriesPoint.mk 1 2], [SeriesPoint.mk 1 3]] : List (List SeriesPoint)).length ∧
      (alignMultipleSeries [[SeriesPoint.mk 1 3], [SeriesPoint.mk 1 2]]
          = ([[SeriesPoint.mk 1 3], [SeriesPoint.mk 1 2]] : List (List SeriesPoint)).map
              (canonicalAligned [[SeriesPoint.mk 1 2], [SeriesPoint.mk 1 3]]) ∧
        List.Pairwise (fun a b : Int => a < b)
          (canonicalDates [[SeriesPoint.mk 1 2], [SeriesPoint.mk 1 3]]) ∧
        (∀ d : Int, d ∈ canonicalDates [[SeriesPoint.mk 1 2], [SeriesPoint.mk 1 3]]
          ↔ inAllDates [[SeriesPoint.mk 1 2], [SeriesPoint.mk 1 3]] d = true)) :=
  ⟨by decide, by decide,
    alignMultipleSeries_canonical _ _ (by decide) (by decide)⟩

end MetricsEngine
